import Mathlib

/-!
Verification of the SLURM parallel RPC dispatch agent (slurmctld/agent.c) and
the burst-buffer bookkeeping subsystem (burst_buffer_common.c), as a shallow
embedding in Lean 4.  Pure C functions become Lean functions on Nat/Int with
explicit reductions modulo 2^32 where 32-bit unsigned overflow matters; the
threaded agent is modelled as explicit state-transition systems over observed
snapshots of the shared worker records.
-/

/-- 2^32, the modulus of C uint32_t arithmetic. -/
def U32 : Nat := 4294967296

/-- 2^63 - 1, the saturation bound of strtol (LONG_MAX on an LP64 host). -/
def LONG_MAX : Int := 9223372036854775807

/-- C isspace characters skipped by strtol before the number. -/
def isSpaceC (c : Char) : Bool :=
  c = ' ' ∨ c = Char.ofNat 9 ∨ c = Char.ofNat 10 ∨ c = Char.ofNat 11 ∨
  c = Char.ofNat 12 ∨ c = Char.ofNat 13

/-- Read a run of decimal digits, returning the accumulated value and the
rest of the character list (the position of strtol's end_ptr). -/
def readDigits : List Char → Nat → Nat × List Char
  | [], acc => (acc, [])
  | c :: cs, acc =>
    if c.isDigit then readDigits cs (acc * 10 + (c.toNat - 48)) else (acc, c :: cs)

/-- Model of C strtol(tok, &end_ptr, 10) on an LP64 host: skip spaces, read an
optional sign and a run of digits, saturate at LONG_MAX / LONG_MIN, and report
the remainder of the string (end_ptr).  With no digits the value is 0 and
end_ptr is the original token. -/
def strtol10 (s : List Char) : Int × List Char :=
  let s1 := s.dropWhile isSpaceC
  match s1 with
  | '-' :: rest =>
    if (rest.headD (Char.ofNat 0)).isDigit then
      let p := readDigits rest 0
      (max (-(p.1 : Int)) (-(LONG_MAX + 1)), p.2)
    else (0, s)
  | '+' :: rest =>
    if (rest.headD (Char.ofNat 0)).isDigit then
      let p := readDigits rest 0
      (min (p.1 : Int) LONG_MAX, p.2)
    else (0, s)
  | rest =>
    if (rest.headD (Char.ofNat 0)).isDigit then
      let p := readDigits rest 0
      (min (p.1 : Int) LONG_MAX, p.2)
    else (0, s)

/-- C conversion of a long to int32_t (GCC semantics: reduce modulo 2^32 and
re-interpret as a signed 32-bit value). -/
def toInt32 (x : Int) : Int :=
  let m := x % 4294967296
  if m < 2147483648 then m else m - 4294967296

/-- _atoi from burst_buffer_common.c: strtol the token into an int32_t; when
positive, cast to uint32_t and multiply by 1024 / 1024*1024 / 1024*1024*1024
for a trailing k/K, m/M, g/G, every multiplication a uint32_t operation that
wraps modulo 2^32; otherwise return 0. -/
def _atoi (tok : String) : Nat :=
  let p := strtol10 tok.data
  let size_i := toInt32 p.1
  let c0 := p.2.headD (Char.ofNat 0)
  if size_i > 0 then
    let size_u := size_i.toNat
    if c0 = 'k' ∨ c0 = 'K' then size_u * 1024 % U32
    else if c0 = 'm' ∨ c0 = 'M' then size_u * 1024 % U32 * 1024 % U32
    else if c0 = 'g' ∨ c0 = 'G' then size_u * 1024 % U32 * 1024 % U32 * 1024 % U32
    else size_u
  else 0

/-- The suffix-interpretation step of bb_get_size_num: on a positive int32
prefix, cast to uint32_t and apply the first trailing character:
m/M rounds MiB up to GiB, g/G is the identity, t/T multiplies by 1024 and
p/P by 1024*1024 with uint32_t wrap-around; non-positive prefixes give 0. -/
def bb_suffix_scale (bb_size_i : Int) (end_ptr : List Char) : Nat :=
  let c0 := end_ptr.headD (Char.ofNat 0)
  if bb_size_i > 0 then
    let bb_size_u := bb_size_i.toNat
    if c0 = 'm' ∨ c0 = 'M' then (bb_size_u + 1023) / 1024
    else if c0 = 'g' ∨ c0 = 'G' then bb_size_u
    else if c0 = 't' ∨ c0 = 'T' then bb_size_u * 1024 % U32
    else if c0 = 'p' ∨ c0 = 'P' then bb_size_u * (1024 * 1024) % U32
    else bb_size_u
  else 0

/-- The granularity-rounding step of bb_get_size_num, in uint32_t
arithmetic: round up to the next multiple of granularity when
granularity > 1. -/
def bb_granularity_round (bb_size_u granularity : Nat) : Nat :=
  if granularity > 1 then
    (bb_size_u + granularity - 1) % U32 / granularity * granularity % U32
  else bb_size_u

/-- bb_get_size_num from burst_buffer_common.c: strtol the token, interpret
the trailing size suffix, then round up to the configured granularity. -/
def bb_get_size_num (tok : String) (granularity : Nat) : Nat :=
  let p := strtol10 tok.data
  bb_granularity_round (bb_suffix_scale (toInt32 p.1) p.2) granularity

/-- The specification's parse_size, written from the spec text and amended
only by performing the suffix scaling and granularity rounding in uint32_t
(modulo 2^32) arithmetic: read a leading positive decimal v; M means MiB
rounded up to GiB ((v+1023)/1024); G or no suffix means GiB; T multiplies by
1024 and P by 1024^2; then round up to the next multiple of granularity when
granularity > 1; a non-positive prefix yields 0. -/
def parse_size_spec (v : Int) (sfx : Option Char) (granularity : Nat) : Nat :=
  let scaled : Nat :=
    if v > 0 then
      match sfx with
      | some c =>
        if c = 'M' ∨ c = 'm' then (v.toNat + 1023) / 1024
        else if c = 'G' ∨ c = 'g' then v.toNat
        else if c = 'T' ∨ c = 't' then v.toNat * 1024 % U32
        else if c = 'P' ∨ c = 'p' then v.toNat * (1024 * 1024) % U32
        else v.toNat
      | none => v.toNat
    else 0
  if granularity > 1 then
    (scaled + granularity - 1) % U32 / granularity * granularity % U32
  else scaled

/-!
Burst-buffer bookkeeping (bb_alloc_job / bb_add_user_load /
bb_remove_user_load).  The fixed-size chained hash tables keyed by
user_id % BB_HASH_SIZE are flattened into single lists: within the C tables a
record is reached by taking the bucket of its user id and then comparing user
ids for equality, so lookup and head-insertion on a flat list observe exactly
the same records.
-/

/-- NICE_OFFSET, the controller's neutral nice value (slurm.h, outside this
repository's sources; the exact value is irrelevant to the claims). -/
def NICE_OFFSET : Nat := 10000

/-- One bb_alloc_t record (the per-job/per-name burst buffer allocation). -/
structure BbAlloc where
  array_job_id : Nat
  array_task_id : Nat
  job_id : Nat
  name : Option String
  size : Nat
  state : Nat
  state_time : Int
  seen_time : Int
  user_id : Nat
deriving DecidableEq, Repr

/-- BB_STATE_ALLOCATED (slurm.h enum value; exact value irrelevant). -/
def BB_STATE_ALLOCATED : Nat := 1

/-- One bb_user_t record: a user id and its aggregate allocated size. -/
structure BbUser where
  user_id : Nat
  size : Nat
deriving DecidableEq, Repr

/-- The accounting slice of bb_state_t: aggregate used space, the bb_hash
allocation table and the bb_uhash user table (flattened, head-insert order),
and the PrioBoostUse configuration read by bb_alloc_job. -/
structure BbState where
  used_space : Nat
  allocs : List BbAlloc
  users : List BbUser
  prio_boost_use : Nat
deriving DecidableEq, Repr

/-- The slice of struct job_record read and written by bb_alloc_job and
bb_alloc_job_rec. -/
structure JobRecord where
  job_id : Nat
  user_id : Nat
  array_job_id : Nat
  array_task_id : Nat
  priority : Nat
  nice : Option Nat
deriving DecidableEq, Repr

/-- bb_find_user_rec: scan the user table for the user id and return the
found record, or insert a fresh zero-size record at the head on a miss.
Returns the record and the (possibly extended) table. -/
def bb_find_user_rec (user_id : Nat) (bb_uhash : List BbUser) : BbUser × List BbUser :=
  match bb_uhash.find? (fun u => u.user_id == user_id) with
  | some u => (u, bb_uhash)
  | none => (⟨user_id, 0⟩, ⟨user_id, 0⟩ :: bb_uhash)

/-- In-place mutation of the first user record with the given id (the record
bb_find_user_rec returned a pointer to). -/
def updateUserSize (user_id : Nat) (f : Nat → Nat) : List BbUser → List BbUser
  | [] => []
  | u :: us =>
    if u.user_id == user_id then { u with size := f u.size } :: us
    else u :: updateUserSize user_id f us

/-- bb_add_user_load: used_space += size (uint32_t), then find-or-create the
user record and add size to its aggregate (uint32_t). -/
def bb_add_user_load (bb : BbAlloc) (st : BbState) : BbState :=
  let st1 := { st with used_space := (st.used_space + bb.size) % U32 }
  let uhash := (bb_find_user_rec bb.user_id st1.users).2
  { st1 with users := updateUserSize bb.user_id (fun s => (s + bb.size) % U32) uhash }

/-- bb_remove_user_load: subtract size from used_space, saturating at zero
(with a logged underflow); then the same on the owning user's aggregate.
The allocation record itself is not unlinked from bb_hash. -/
def bb_remove_user_load (bb : BbAlloc) (st : BbState) : BbState :=
  let used := if st.used_space ≥ bb.size then st.used_space - bb.size else 0
  let st1 := { st with used_space := used }
  let uhash := (bb_find_user_rec bb.user_id st1.users).2
  { st1 with
    users := updateUserSize bb.user_id
      (fun s => if s ≥ bb.size then s - bb.size else 0) uhash }

/-- bb_alloc_job_rec: build a fresh allocation record for the job (state
ALLOCATED, state_time = seen_time = now) and insert it at the head of the
job's user-id bucket of bb_hash. -/
def bb_alloc_job_rec (st : BbState) (job : JobRecord) (bb_size : Nat) (now : Int) :
    BbAlloc × BbState :=
  let bb : BbAlloc :=
    { array_job_id := job.array_job_id, array_task_id := job.array_task_id,
      job_id := job.job_id, name := none, size := bb_size,
      state := BB_STATE_ALLOCATED, state_time := now, seen_time := now,
      user_id := job.user_id }
  (bb, { st with allocs := bb :: st.allocs })

/-- bb_alloc_job: optionally raise the job's priority per PrioBoostUse
(new_nice = NICE_OFFSET - prio_boost_use as uint16_t; applied only when it is
below the job's current nice), then bb_alloc_job_rec followed by
bb_add_user_load.  Returns the new record, the new state and the possibly
boosted job. -/
def bb_alloc_job (st : BbState) (job : JobRecord) (bb_size : Nat) (now : Int) :
    BbAlloc × BbState × JobRecord :=
  let job' :=
    match job.nice with
    | some nice =>
      if st.prio_boost_use ≠ 0 then
        let new_nice := (((NICE_OFFSET : Int) - st.prio_boost_use) % 4294967296).toNat % 65536
        if new_nice < nice then
          { job with priority := (job.priority + nice - new_nice) % U32,
                     nice := some new_nice }
        else job
      else job
    | none => job
  let p := bb_alloc_job_rec st job' bb_size now
  (p.1, bb_add_user_load p.1 p.2, job')

/-- One call in a bookkeeping trace: a bb_alloc_job, or a bb_remove_user_load
applied to the record at position idx of the (head-insert ordered) bb_hash
list. -/
inductive BbOp
  | alloc (job : JobRecord) (size : Nat) (now : Int)
  | remove (idx : Nat)
deriving DecidableEq, Repr

/-- A bookkeeping run: the bb_state_t plus, as ghost data, one liveness flag
per allocation record, false once the record has been passed to
bb_remove_user_load. -/
structure BbRun where
  st : BbState
  live : List Bool
deriving DecidableEq, Repr

/-- The empty cache produced by bb_alloc_cache, with a given PrioBoostUse. -/
def bbInitRun (pbu : Nat) : BbRun :=
  { st := { used_space := 0, allocs := [], users := [], prio_boost_use := pbu },
    live := [] }

/-- Apply one bookkeeping call. -/
def bbStep (r : BbRun) : BbOp → BbRun
  | .alloc job size now =>
    { st := (bb_alloc_job r.st job size now).2.1, live := true :: r.live }
  | .remove idx =>
    match r.st.allocs.get? idx with
    | some bb => { st := bb_remove_user_load bb r.st, live := r.live.set idx false }
    | none => r

/-- Apply a sequence of bookkeeping calls. -/
def bbRun (r : BbRun) : List BbOp → BbRun
  | [] => r
  | op :: ops => bbRun (bbStep r op) ops

/-- A trace is valid when every remove targets a record that exists and has
not been removed before. -/
def bbValid (r : BbRun) : List BbOp → Bool
  | [] => true
  | op :: ops =>
    (match op with
     | .alloc _ _ _ => true
     | .remove idx => r.live.get? idx == some true) && bbValid (bbStep r op) ops

/-- Total size of the alloc calls in a trace. -/
def bbAllocTotal : List BbOp → Nat
  | [] => 0
  | .alloc _ size _ :: ops => size + bbAllocTotal ops
  | .remove _ :: ops => bbAllocTotal ops

/-- Sum of the sizes of the live (not yet removed) allocation records. -/
def liveTotal : List BbAlloc → List Bool → Nat
  | [], _ => 0
  | _, [] => 0
  | a :: as_, l :: ls => (if l then a.size else 0) + liveTotal as_ ls

/-- Sum of the sizes of a given user's live allocation records. -/
def liveSizeOf (uid : Nat) : List BbAlloc → List Bool → Nat
  | [], _ => 0
  | _, [] => 0
  | a :: as_, l :: ls =>
    (if l ∧ a.user_id = uid then a.size else 0) + liveSizeOf uid as_ ls

/-- Sum of the sizes of a given user's allocation records as they sit in
bb_hash (the sum named by the claim, ignoring removals). -/
def allocSizeOf (uid : Nat) : List BbAlloc → Nat
  | [] => 0
  | a :: as_ => (if a.user_id = uid then a.size else 0) + allocSizeOf uid as_

/-- Sum of user.size over all user records. -/
def userSizeSum : List BbUser → Nat
  | [] => 0
  | u :: us => u.size + userSizeSum us

/-- The aggregate size recorded for a user id (0 when absent), read the way
the code reads it: first matching record. -/
def lookupSize (uid : Nat) (us : List BbUser) : Nat :=
  ((us.find? (fun u => u.user_id == uid)).map (fun u => u.size)).getD 0

/-!
Burst-buffer configuration clearing (bb_clear_config).  xfree'd pointers are
modelled as Option set to none.
-/

/-- NO_VAL, the slurm sentinel for an unset uint32_t (0xfffffffe, from
slurm.h outside this repository's sources). -/
def NO_VAL : Nat := 4294967294

/-- One burst_buffer_gres_t entry of the configuration's GRES inventory. -/
structure GresEntry where
  name : Option String
  avail_cnt : Nat
  used_cnt : Nat
deriving DecidableEq, Repr

/-- bb_config_t. The gres_ptr array is Option so that freeing the array
(fini) is distinguishable from an empty array. -/
structure BbConfig where
  allow_users : Option (List Nat)
  allow_users_str : Option String
  debug_flag : Bool
  deny_users : Option (List Nat)
  deny_users_str : Option String
  get_sys_state : Option String
  granularity : Nat
  gres_ptr : Option (List GresEntry)
  gres_cnt : Nat
  job_size_limit : Nat
  stage_in_timeout : Nat
  stage_out_timeout : Nat
  prio_boost_alloc : Nat
  prio_boost_use : Nat
  start_stage_in : Option String
  start_stage_out : Option String
  stop_stage_in : Option String
  stop_stage_out : Option String
  user_size_limit : Nat
deriving DecidableEq, Repr

/-- bb_clear_config: free the user lists and script paths, reset the scalar
fields to their defaults (granularity 1, size limits NO_VAL, boosts and
timeouts 0, debug_flag false); with fini, additionally free every GRES name
and the GRES array and zero gres_cnt, otherwise keep the GRES entries and
gres_cnt and zero each entry's avail_cnt. -/
def bb_clear_config (c : BbConfig) (fini : Bool) : BbConfig :=
  { allow_users := none
    allow_users_str := none
    debug_flag := false
    deny_users := none
    deny_users_str := none
    get_sys_state := none
    granularity := 1
    gres_ptr :=
      if fini then none
      else c.gres_ptr.map (List.map (fun g => { g with avail_cnt := 0 }))
    gres_cnt := if fini then 0 else c.gres_cnt
    job_size_limit := NO_VAL
    stage_in_timeout := 0
    stage_out_timeout := 0
    prio_boost_alloc := 0
    prio_boost_use := 0
    start_stage_in := none
    start_stage_out := none
    stop_stage_in := none
    stop_stage_out := none
    user_size_limit := NO_VAL }

/-!
run_script: the supervised-subprocess helper.  The parent's poll/read loop is
driven by an environment trace: for each loop iteration, the elapsed whole
seconds since start_time and the outcome of the poll and read calls.  The
captured response is modelled by its byte count; a nil (NULL) result is none.
-/

/-- Outcome of one poll (and, under POLLIN, read) in run_script's loop. -/
inductive PollEv
  | timeout
  | noPollIn
  | readData (n : Nat)
  | readZero
  | readErrAgain
  | readErrOther
deriving DecidableEq, Repr

/-- The environment of one run_script call: results of the access, pipe and
fork system calls, and the trace of poll outcomes observed by the parent
loop. -/
structure ScriptEnv where
  accessOk : Bool
  pipeOk : Bool
  forkOk : Bool
  polls : List (Nat × PollEv)
deriving DecidableEq, Repr

/-- The parent's read loop: new_wait = (time(NULL) - start_time) + max_wait,
break when it is ≤ 0; poll; break on poll timeout/error, on revents without
POLLIN, on read 0 or a non-EAGAIN read error; append and grow the buffer
(double when within 1024 of capacity) on data.  Returns the captured byte
count. -/
def runLoop (max_wait : Int) : List (Nat × PollEv) → Nat → Nat → Nat
  | [], _, resp_offset => resp_offset
  | (elapsed, ev) :: rest, resp_size, resp_offset =>
    let new_wait : Int := (elapsed : Int) + max_wait
    if new_wait ≤ 0 then resp_offset
    else
      match ev with
      | .timeout => resp_offset
      | .noPollIn => resp_offset
      | .readZero => resp_offset
      | .readErrAgain => runLoop max_wait rest resp_size resp_offset
      | .readErrOther => resp_offset
      | .readData n =>
        let i := min n (resp_size - resp_offset)
        if i = 0 then resp_offset
        else
          let resp_offset' := resp_offset + i
          if resp_offset' + 1024 ≥ resp_size then
            runLoop max_wait rest (resp_size * 2) resp_offset'
          else
            runLoop max_wait rest resp_size resp_offset'

/-- run_script from burst_buffer_common.c.  Returns none for a NULL result
and some n for a captured buffer of n bytes.  Fails fast (NULL) on a missing,
empty, relative or non-executable path, on pipe failure (when max_wait is not
-1) and on fork failure; on max_wait = -1 the child is double-forked and NULL
is returned at once; otherwise the parent runs the read loop, kills the
child's process group and reaps it, and returns the buffer. -/
def run_script (script_path : Option String) (max_wait : Int) (env : ScriptEnv) :
    Option Nat :=
  match script_path with
  | none => none
  | some path =>
    match path.data with
    | [] => none
    | c0 :: _ =>
      if c0 ≠ '/' then none
      else if env.accessOk = false then none
      else if max_wait ≠ -1 ∧ env.pipeOk = false then none
      else if env.forkOk = false then none
      else if max_wait ≠ -1 then some (runLoop max_wait env.polls 1024 0)
      else none

/-!
The agent scheduler's argument validation (agent() lines 125-137).
-/

/-- The slurm message types the model distinguishes. -/
inductive SlurmMsgType
  | REQUEST_REVOKE_JOB_CREDENTIAL
  | REQUEST_NODE_REGISTRATION_STATUS
  | REQUEST_PING
  | RESPONSE_SLURM_RC
  | OTHER (n : Nat)
deriving DecidableEq, Repr

/-- agent_arg_t: target count, the address and node-name arrays (none models
a NULL pointer), the message type and opaque payload. -/
structure AgentArg where
  addr_count : Nat
  slurm_addr : Option (List Int)
  node_names : Option (List String)
  msg_type : SlurmMsgType
deriving DecidableEq, Repr

/-- What the validation prologue of agent() decides. -/
inductive AgentOutcome
  | fatal
  | noop
  | proceed
deriving DecidableEq, Repr

/-- The argument checks of agent(), in source order: NULL argument is fatal;
addr_count 0 jumps to cleanup (a no-op) before any other check; a NULL
address list, a NULL node-name list, or a message type outside
REQUEST_REVOKE_JOB_CREDENTIAL / REQUEST_NODE_REGISTRATION_STATUS /
REQUEST_PING is fatal; otherwise dispatch proceeds. -/
def agent_validate : Option AgentArg → AgentOutcome
  | none => .fatal
  | some a =>
    if a.addr_count = 0 then .noop
    else if a.slurm_addr = none then .fatal
    else if a.node_names = none then .fatal
    else if a.msg_type ≠ .REQUEST_REVOKE_JOB_CREDENTIAL ∧
            a.msg_type ≠ .REQUEST_NODE_REGISTRATION_STATUS ∧
            a.msg_type ≠ .REQUEST_PING then .fatal
    else .proceed

/-!
The per-target worker thread_per_node_rpc: open, send, receive, shutdown,
check the residual byte count, classify the reply.
-/

/-- The network environment observed by one worker: whether open and send
succeed, the result of slurm_receive_msg (none models SLURM_SOCKET_ERROR,
some msg_size the residual byte count it returned), whether shutdown
succeeds, and the received reply type with its embedded return code. -/
structure RpcEnv where
  openOk : Bool
  sendOk : Bool
  recvSize : Option Int
  shutdownOk : Bool
  replyType : SlurmMsgType
  replyRc : Int
deriving DecidableEq, Repr

/-- The worker's terminal state per the DSH state machine of agent.c. -/
inductive DshSt
  | NEW
  | ACTIVE
  | DONE
  | FAILED
deriving DecidableEq, Repr

/-- thread_per_node_rpc outcome classification: thread_state starts FAILED
and becomes DONE only when open, send, receive and shutdown all succeed, the
residual count is zero and the reply is RESPONSE_SLURM_RC with return_code
0. -/
def thread_per_node_rpc (env : RpcEnv) : DshSt :=
  if ¬ env.openOk then .FAILED
  else if ¬ env.sendOk then .FAILED
  else
    match env.recvSize with
    | none => .FAILED
    | some msg_size =>
      if ¬ env.shutdownOk then .FAILED
      else if msg_size ≠ 0 then .FAILED
      else
        match env.replyType with
        | .RESPONSE_SLURM_RC => if env.replyRc ≠ 0 then .FAILED else .DONE
        | _ => .FAILED

/-!
The watchdog (wdog).  A thd_t snapshot list models the worker records as the
watchdog observes them under the mutex on one poll; a trace is the sequence
of snapshots at successive polls.  The watchdog itself only reads the
records: its effects are the SIGALRM signals it sends and, after exit, the
node_not_resp / node_did_resp reconciliation calls made under the
job-write/node-write controller lock.
-/

/-- One thd_t as the watchdog sees it: state, the time field (start time
while ACTIVE, elapsed seconds once terminal) and the node name. -/
structure Thd where
  state : DshSt
  time : Int
  node_name : String
deriving DecidableEq, Repr

/-- WDOG_POLL: 1 second when COMMAND_TIMEOUT is 1, else 2 seconds.
COMMAND_TIMEOUT itself is configured in agent.h, outside these sources, so
it stays a parameter (ct) of the watchdog model. -/
def WDOG_POLL (ct : Int) : Int := if ct = 1 then 1 else 2

/-- What one pass of the watchdog's for-loop computes. -/
structure WdogScanOut where
  work_done : Bool
  fail_cnt : Nat
  max_delay : Int
  alarms : List Nat
deriving DecidableEq, Repr

/-- One pass over the worker records (the for-loop body run under the
mutex): ACTIVE and NEW clear work_done, an ACTIVE worker whose
now - timestamp is at least COMMAND_TIMEOUT is sent SIGALRM (collected in
alarms by index), DONE feeds max_delay, FAILED bumps fail_cnt.  States are
only read, never written. -/
def wdogScan (ct now : Int) (i : Nat) : List Thd → WdogScanOut
  | [] => ⟨true, 0, 0, []⟩
  | t :: rest =>
    let r := wdogScan ct now (i + 1) rest
    match t.state with
    | .ACTIVE =>
      ⟨false, r.fail_cnt, r.max_delay,
       if now - t.time ≥ ct then i :: r.alarms else r.alarms⟩
    | .NEW => ⟨false, r.fail_cnt, r.max_delay, r.alarms⟩
    | .DONE => ⟨r.work_done, r.fail_cnt, max r.max_delay t.time, r.alarms⟩
    | .FAILED => ⟨r.work_done, r.fail_cnt + 1, r.max_delay, r.alarms⟩

/-- The watchdog's poll loop over the observed snapshots: scan each snapshot
in turn, accumulating max_delay and the SIGALRM signals sent at each poll;
exit (still holding the mutex) at the first snapshot with work_done,
returning it with the fail count, the accumulated max_delay and the per-poll
alarm record.  none models a trace on which the loop never exits. -/
def wdogLoop (ct max_delay : Int) (acc : List (Int × List Nat)) :
    List (Int × List Thd) → Option (List Thd × Nat × Int × List (Int × List Nat))
  | [] => none
  | (now, snap) :: rest =>
    let r := wdogScan ct now 0 snap
    let maxd := max max_delay r.max_delay
    if r.work_done then some (snap, r.fail_cnt, maxd, acc ++ [(now, r.alarms)])
    else wdogLoop ct maxd (acc ++ [(now, r.alarms)]) rest

/-- Lock levels of the controller's composite lock (slurmctld/locks.h). -/
inductive LockLevel
  | NO_LOCK
  | READ_LOCK
  | WRITE_LOCK
deriving DecidableEq, Repr

/-- A slurmctld_lock_t: levels for config, job, node, partition in the
controller's fixed ordering. -/
structure SlurmctldLock where
  conf : LockLevel
  job : LockLevel
  node : LockLevel
  partition : LockLevel
deriving DecidableEq, Repr

/-- The watchdog's composite lock: write job, write node. -/
def node_write_lock : SlurmctldLock := ⟨.NO_LOCK, .WRITE_LOCK, .WRITE_LOCK, .NO_LOCK⟩

/-- The observable controller-side actions of the watchdog's
reconciliation. -/
inductive WdogCall
  | lock (l : SlurmctldLock)
  | unlock (l : SlurmctldLock)
  | not_resp (node_name : String)
  | did_resp (node_name : String)
deriving DecidableEq, Repr

/-- The reconciliation after the poll loop: when fail_cnt is non-zero, walk
the worker array in target order calling node_not_resp for each FAILED
worker, under the job-write/node-write lock; then (always) walk it again
calling node_did_resp for each DONE worker, under the same lock. -/
def wdogReconcile (snap : List Thd) (fail_cnt : Nat) : List WdogCall :=
  (if fail_cnt ≠ 0 then
     [.lock node_write_lock] ++
     (snap.filter (fun t => t.state == .FAILED)).map (fun t => .not_resp t.node_name) ++
     [.unlock node_write_lock]
   else []) ++
  [.lock node_write_lock] ++
  (snap.filter (fun t => t.state == .DONE)).map (fun t => .did_resp t.node_name) ++
  [.unlock node_write_lock]

/-- The whole watchdog on a snapshot trace: run the poll loop, then
reconcile the exit snapshot.  Returns the exit snapshot, max_delay, the
per-poll SIGALRMs and the reconciliation calls. -/
def wdog (ct : Int) (snaps : List (Int × List Thd)) :
    Option (List Thd × Int × List (Int × List Nat) × List WdogCall) :=
  match wdogLoop ct 0 [] snaps with
  | none => none
  | some (snap, fail_cnt, maxd, alarms) => some (snap, maxd, alarms, wdogReconcile snap fail_cnt)

/-- Number of records in a given state. -/
def countSt (s : DshSt) : List Thd → Nat
  | [] => 0
  | t :: ts => (if t.state = s then 1 else 0) + countSt s ts

/-- The node names passed to node_not_resp, in call order. -/
def callsNotResp : List WdogCall → List String
  | [] => []
  | .not_resp n :: cs => n :: callsNotResp cs
  | _ :: cs => callsNotResp cs

/-- The node names passed to node_did_resp, in call order. -/
def callsDidResp : List WdogCall → List String
  | [] => []
  | .did_resp n :: cs => n :: callsDidResp cs
  | _ :: cs => callsDidResp cs

/-- True when no node_not_resp call follows a node_did_resp call. -/
def notBeforeDid : List WdogCall → Bool → Bool
  | [], _ => true
  | .did_resp _ :: cs, _ => notBeforeDid cs true
  | .not_resp _ :: cs, seenDid => !seenDid && notBeforeDid cs seenDid
  | _ :: cs, seenDid => notBeforeDid cs seenDid

/-- True when every node_not_resp / node_did_resp call happens while the
job-write/node-write composite lock is held. -/
def respLocked : List WdogCall → Option SlurmctldLock → Bool
  | [], _ => true
  | .lock l :: cs, _ => respLocked cs (some l)
  | .unlock _ :: cs, _ => respLocked cs none
  | .not_resp _ :: cs, held => (held == some node_write_lock) && respLocked cs held
  | .did_resp _ :: cs, held => (held == some node_write_lock) && respLocked cs held

/-- How one worker record may evolve between two successive polls at times
prevNow and now: the name is fixed; NEW may start (ACTIVE with a start time
in the interval) or even start and finish; ACTIVE keeps its start time until
it finishes at some time ft in the interval, recording state DONE or FAILED
and the elapsed seconds ft - start; terminal states are absorbing with a
frozen time field. -/
def thdStep (prevNow now : Int) (a b : Thd) : Prop :=
  b.node_name = a.node_name ∧
  match a.state, b.state with
  | .NEW, .NEW => b.time = a.time
  | .NEW, .ACTIVE => prevNow ≤ b.time ∧ b.time ≤ now
  | .NEW, .DONE => ∃ st ft, prevNow ≤ st ∧ st ≤ ft ∧ ft ≤ now ∧ b.time = ft - st
  | .NEW, .FAILED => ∃ st ft, prevNow ≤ st ∧ st ≤ ft ∧ ft ≤ now ∧ b.time = ft - st
  | .ACTIVE, .ACTIVE => b.time = a.time
  | .ACTIVE, .DONE => ∃ ft, prevNow ≤ ft ∧ ft ≤ now ∧ b.time = ft - a.time
  | .ACTIVE, .FAILED => ∃ ft, prevNow ≤ ft ∧ ft ≤ now ∧ b.time = ft - a.time
  | .DONE, .DONE => b.time = a.time
  | .FAILED, .FAILED => b.time = a.time
  | _, _ => False

/-- A snapshot trace is legal from a previous observation (prevNow, prev)
when polls are WDOG_POLL apart and consecutive snapshots are related
record-wise by thdStep. -/
def snapsLegal (ct : Int) : Int → List Thd → List (Int × List Thd) → Prop
  | _, _, [] => True
  | prevNow, prev, (now, snap) :: rest =>
    now = prevNow + WDOG_POLL ct ∧
    List.Forall₂ (thdStep prevNow now) prev snap ∧
    snapsLegal ct now snap rest

/-- A legal watchdog trace: all workers are constructed NEW by agent() at
time start, and the successive snapshots evolve legally. -/
def legalTrace (ct start : Int) (init : List Thd) (snaps : List (Int × List Thd)) : Prop :=
  (∀ t ∈ init, t.state = .NEW) ∧ snapsLegal ct start init snaps

/-!
The bounded worker pool (agent() dispatch loop and the threads_active
counter).  Under the scheduler mutex, the compound actions are atomic: the
dispatch loop waits while threads_active ≥ AGENT_THREAD_COUNT, then creates
a worker and increments the counter before releasing the mutex; a finishing
worker stores its terminal state and decrements the counter (a uint32_t
decrement) in its own mutex section.  The interleaving of these mutex
sections is the transition system below.
-/

/-- The dispatch status of one worker slot. -/
inductive WkPhase
  | notSpawned
  | running
  | finished
deriving DecidableEq, Repr

/-- The shared scheduler context: the threads_active counter and the phase
of each worker slot. -/
structure PoolState where
  threads_active : Nat
  workers : List WkPhase
deriving DecidableEq, Repr

/-- Number of running workers. -/
def countRunning : List WkPhase → Nat
  | [] => 0
  | w :: ws => (if w = .running then 1 else 0) + countRunning ws

/-- The two mutex-protected compound actions, with N = AGENT_THREAD_COUNT:
spawn creates the next unspawned worker, guarded by the condition-variable
wait threads_active < N, and increments the counter; finish marks a running
worker terminal and decrements the counter (uint32_t arithmetic). -/
inductive PoolStep (N : Nat) : PoolState → PoolState → Prop
  | spawn (s : PoolState) (i : Nat) :
      s.workers.get? i = some .notSpawned →
      s.threads_active < N →
      PoolStep N s ⟨(s.threads_active + 1) % U32, s.workers.set i .running⟩
  | finish (s : PoolState) (i : Nat) :
      s.workers.get? i = some .running →
      PoolStep N s ⟨(s.threads_active + (U32 - 1)) % U32, s.workers.set i .finished⟩

/-- States reachable in an agent invocation: initially the counter is 0 and
all addr_count worker records are unspawned (DSH_NEW), then any interleaving
of the two compound actions. -/
inductive PoolReach (N : Nat) : PoolState → Prop
  | init (cnt : Nat) : PoolReach N ⟨0, List.replicate cnt .notSpawned⟩
  | step {s t : PoolState} : PoolReach N s → PoolStep N s t → PoolReach N t

/-- A configuration holding one GRES entry with a non-zero used count, as
left behind by normal operation before a reload. -/
def cfgUsedGres : BbConfig :=
  { allow_users := some [1001]
    allow_users_str := some ("alice")
    debug_flag := true
    deny_users := none
    deny_users_str := none
    get_sys_state := some ("/usr/bin/state")
    granularity := 16
    gres_ptr := some [{ name := some ("nvme"), avail_cnt := 2, used_cnt := 1 }]
    gres_cnt := 1
    job_size_limit := 100
    stage_in_timeout := 30
    stage_out_timeout := 30
    prio_boost_alloc := 10
    prio_boost_use := 20
    start_stage_in := some ("/usr/bin/si")
    start_stage_out := some ("/usr/bin/so")
    stop_stage_in := some ("/usr/bin/ki")
    stop_stage_out := some ("/usr/bin/ko")
    user_size_limit := 50 }

/-- The environment of a run_script call on a healthy system whose child
stays silent until the poll times out (for example /bin/sleep 60 captured
with max_wait 2). -/
def envSilentChild : ScriptEnv :=
  { accessOk := true, pipeOk := true, forkOk := true, polls := [(0, .timeout)] }

/-- The single worker of the C5 counterexample as constructed by agent(). -/
def c5init : List Thd := [⟨.NEW, 0, "n0"⟩]

/-- Three legal polls: the worker starts at time 0, is ACTIVE at polls 2
and 4, and has finished successfully at poll 6 with elapsed time 6. -/
def c5snaps : List (Int × List Thd) :=
  [(2, [⟨.ACTIVE, 0, "n0"⟩]), (4, [⟨.ACTIVE, 0, "n0"⟩]), (6, [⟨.DONE, 6, "n0"⟩])]

/-- The exit snapshot of a one-poll watchdog trace with one DONE and one
FAILED worker. -/
def c4snap : List Thd := [⟨.DONE, 1, "n0"⟩, ⟨.FAILED, 2, "n1"⟩]

/-- The invariant tying a run's bb_state_t to its live allocation records:
table lengths agree, user ids are distinct, every user id's recorded size is
its live allocation size, and used_space is both the total live size and
the sum of the user records. -/
def bbInv (r : BbRun) : Prop :=
  r.live.length = r.st.allocs.length ∧
  (r.st.users.map (fun u => u.user_id)).Nodup ∧
  (∀ uid, lookupSize uid r.st.users = liveSizeOf uid r.st.allocs r.live) ∧
  r.st.used_space = liveTotal r.st.allocs r.live ∧
  r.st.used_space = userSizeSum r.st.users

/-- A one-allocation trace: job 1 of user 7 allocates 5 units at time 0. -/
def c8ops : List BbOp := [BbOp.alloc ⟨1, 7, 1, 0, 100, none⟩ 5 0]

/-- The run of the C8 counterexample: allocate 5 units for user 7, then
remove the allocation. -/
def c8cex : BbRun :=
  bbRun (bbInitRun 0) [BbOp.alloc ⟨1, 7, 1, 0, 100, none⟩ 5 0, BbOp.remove 0]

/-!
Theorems.
-/

/-- C2: a per-target worker terminates DONE exactly when the connection
open, send, receive and shutdown all succeed, the residual byte count is
zero, and the reply is RESPONSE_SLURM_RC with return code 0; in every other
case it terminates FAILED. -/
theorem C2_worker_terminal_classification (env : RpcEnv) :
    (thread_per_node_rpc env = .DONE ↔
      (env.openOk = true ∧ env.sendOk = true ∧ env.recvSize = some 0 ∧
       env.shutdownOk = true ∧ env.replyType = .RESPONSE_SLURM_RC ∧
       env.replyRc = 0)) ∧
    (thread_per_node_rpc env = .DONE ∨ thread_per_node_rpc env = .FAILED) := by
  obtain ⟨o, s, r, sh, ty, rc⟩ := env
  cases o <;> cases s <;> cases sh <;> rcases r with _ | ms <;> cases ty <;>
      simp [thread_per_node_rpc] <;>
    by_cases hms : ms = 0 <;> by_cases hrc : rc = 0 <;> simp [hms, hrc]

/-- C3 counterexample: an agent argument with addr_count 0 and NULL address
and node-name lists reaches the cleanup label and is a no-op, not a fatal
abort, because the addr_count test runs before the NULL-list and
message-type tests. -/
theorem C3_counterexample :
    agent_validate (some ⟨0, none, none, .REQUEST_PING⟩) = .noop ∧
    AgentOutcome.noop ≠ .fatal := by
  constructor
  · rfl
  · intro h; cases h

/-- C3 (amended): a NULL request is fatal; addr_count 0 returns as a no-op
before any other check (even with NULL lists); otherwise a NULL address
list, a NULL node-name list, or a message type outside
REVOKE_JOB_CREDENTIAL / NODE_REGISTRATION_STATUS / PING is fatal, and a
well-formed argument proceeds to dispatch. -/
theorem C3_agent_validation :
    agent_validate none = .fatal ∧
    (∀ a : AgentArg, a.addr_count = 0 → agent_validate (some a) = .noop) ∧
    (∀ a : AgentArg, a.addr_count ≠ 0 → a.slurm_addr = none →
      agent_validate (some a) = .fatal) ∧
    (∀ a : AgentArg, a.addr_count ≠ 0 → a.node_names = none →
      agent_validate (some a) = .fatal) ∧
    (∀ a : AgentArg, a.addr_count ≠ 0 →
      a.msg_type ≠ .REQUEST_REVOKE_JOB_CREDENTIAL →
      a.msg_type ≠ .REQUEST_NODE_REGISTRATION_STATUS →
      a.msg_type ≠ .REQUEST_PING → agent_validate (some a) = .fatal) ∧
    (∀ a : AgentArg, a.addr_count ≠ 0 → a.slurm_addr ≠ none → a.node_names ≠ none →
      (a.msg_type = .REQUEST_REVOKE_JOB_CREDENTIAL ∨
       a.msg_type = .REQUEST_NODE_REGISTRATION_STATUS ∨
       a.msg_type = .REQUEST_PING) → agent_validate (some a) = .proceed) := by
  refine ⟨rfl, ?_, ?_, ?_, ?_, ?_⟩ <;> intro a <;>
    obtain ⟨cnt, addr, names, ty⟩ := a <;> intros <;>
    simp_all [agent_validate] <;> aesop

/-- C3 amended-claim witness at concrete inputs. -/
theorem C3_agent_validation_witness :
    agent_validate (some ⟨3, none, some [], .REQUEST_PING⟩) = .fatal ∧
    agent_validate (some ⟨2, some [1, 2], some ["a", "b"], .REQUEST_PING⟩) = .proceed := by
  have h := C3_agent_validation
  exact ⟨h.2.2.1 _ (by simp) rfl,
         h.2.2.2.2.2 _ (by simp) (by simp) (by simp) (by simp)⟩

/-- C9 counterexample: bb_clear_config with fini = false zeroes only the
per-GRES avail_cnt; a non-zero used_cnt survives, so the claim that it
"zeroes the per-GRES counts" fails on this input. -/
theorem C9_counterexample :
    (bb_clear_config cfgUsedGres false).gres_ptr =
      some [{ name := some ("nvme"), avail_cnt := 0, used_cnt := 1 }] ∧
    (1 : Nat) ≠ 0 := by
  exact ⟨rfl, by decide⟩

/-- C9 (amended): bb_clear_config resets every scalar field to its default
(granularity 1, size limits NO_VAL, boosts and timeouts 0, debug off) and
frees the user-list and script-path strings; with fini = false it keeps
gres_cnt and every GRES entry name and used_cnt, zeroing only the avail
counts; with fini = true it frees the GRES array and zeroes gres_cnt. -/
theorem C9_clear_config (c : BbConfig) (fini : Bool) :
    (bb_clear_config c fini).allow_users = none ∧
    (bb_clear_config c fini).allow_users_str = none ∧
    (bb_clear_config c fini).debug_flag = false ∧
    (bb_clear_config c fini).deny_users = none ∧
    (bb_clear_config c fini).deny_users_str = none ∧
    (bb_clear_config c fini).get_sys_state = none ∧
    (bb_clear_config c fini).granularity = 1 ∧
    (bb_clear_config c fini).job_size_limit = NO_VAL ∧
    (bb_clear_config c fini).user_size_limit = NO_VAL ∧
    (bb_clear_config c fini).stage_in_timeout = 0 ∧
    (bb_clear_config c fini).stage_out_timeout = 0 ∧
    (bb_clear_config c fini).prio_boost_alloc = 0 ∧
    (bb_clear_config c fini).prio_boost_use = 0 ∧
    (bb_clear_config c fini).start_stage_in = none ∧
    (bb_clear_config c fini).start_stage_out = none ∧
    (bb_clear_config c fini).stop_stage_in = none ∧
    (bb_clear_config c fini).stop_stage_out = none ∧
    (fini = false →
      (bb_clear_config c false).gres_cnt = c.gres_cnt ∧
      ∀ gs, c.gres_ptr = some gs →
        ∃ gs', (bb_clear_config c false).gres_ptr = some gs' ∧
          gs'.length = gs.length ∧
          ∀ i g g', gs.get? i = some g → gs'.get? i = some g' →
            g'.name = g.name ∧ g'.avail_cnt = 0 ∧ g'.used_cnt = g.used_cnt) ∧
    (fini = true →
      (bb_clear_config c true).gres_ptr = none ∧
      (bb_clear_config c true).gres_cnt = 0) := by
  refine ⟨rfl, rfl, rfl, rfl, rfl, rfl, rfl, rfl, rfl, rfl, rfl, rfl, rfl, rfl,
          rfl, rfl, rfl, ?_, ?_⟩
  · intro _
    refine ⟨by simp [bb_clear_config], ?_⟩
    intro gs hgs
    refine ⟨gs.map (fun g => { g with avail_cnt := 0 }), by simp [bb_clear_config, hgs], by simp, ?_⟩
    intro i g g' hg hg'
    rw [List.get?_map, hg] at hg'
    cases hg'
    exact ⟨rfl, rfl, rfl⟩
  · intro _
    exact ⟨by simp [bb_clear_config], by simp [bb_clear_config]⟩

/-- C9 amended-claim witness at a concrete configuration. -/
theorem C9_clear_config_witness :
    (bb_clear_config cfgUsedGres false).granularity = 1 ∧
    (bb_clear_config cfgUsedGres false).gres_cnt = cfgUsedGres.gres_cnt ∧
    (bb_clear_config cfgUsedGres true).gres_ptr = none := by
  have h1 := C9_clear_config cfgUsedGres false
  have h2 := C9_clear_config cfgUsedGres true
  exact ⟨h1.2.2.2.2.2.2.1, (h1.2.2.2.2.2.2.2.2.2.2.2.2.2.2.2.2.2.1 rfl).1,
         (h2.2.2.2.2.2.2.2.2.2.2.2.2.2.2.2.2.2.2 rfl).1⟩

/-- C1 counterexample: with a valid executable and a child that produces no
output (/bin/sleep 60, max_wait = 2), the poll times out and run_script
returns the allocated, still-empty response buffer - a non-nil result -
because resp is xmalloc'd before the loop and returned on every exit from
it.  The claim that a timeout returns nil fails here. -/
theorem C1_counterexample :
    run_script (some ("/bin/sleep")) 2 envSilentChild = some 0 ∧
    (some 0 : Option Nat) ≠ none := by
  exact ⟨rfl, by decide⟩

/-- C1 (amended): run_script returns nil on every failure detected before
the child is running - missing or empty path, non-absolute path, a path
that is not readable/executable, pipe error, fork error - and on the
asynchronous max_wait = -1 path; but once the child is forked with
max_wait ≥ 0 the result is always a non-nil captured buffer (possibly
empty), in particular on poll timeout or read error. -/
theorem C1_run_script_failures (p : String) (mw : Int) (env : ScriptEnv) :
    (run_script none mw env = none) ∧
    (p.data = [] → run_script (some p) mw env = none) ∧
    (∀ c cs, p.data = c :: cs → c ≠ '/' → run_script (some p) mw env = none) ∧
    (env.accessOk = false → run_script (some p) mw env = none) ∧
    (mw ≠ -1 → env.pipeOk = false → run_script (some p) mw env = none) ∧
    (env.forkOk = false → run_script (some p) mw env = none) ∧
    (mw = -1 → run_script (some p) mw env = none) ∧
    (∀ cs, p.data = '/' :: cs → 0 ≤ mw → env.accessOk = true → env.pipeOk = true →
      env.forkOk = true → (run_script (some p) mw env).isSome = true) := by
  refine ⟨rfl, ?_, ?_, ?_, ?_, ?_, ?_, ?_⟩
  · intro h; simp [run_script, h]
  · intro c cs h hc; simp [run_script, h, hc]
  · intro h
    cases hd : p.data with
    | nil => simp [run_script, hd]
    | cons c cs => simp [run_script, hd, h]
  · intro hmw h
    cases hd : p.data with
    | nil => simp [run_script, hd]
    | cons c cs => simp [run_script, hd, h, hmw]
  · intro h
    cases hd : p.data with
    | nil => simp [run_script, hd]
    | cons c cs => simp [run_script, hd, h]
  · intro hmw
    cases hd : p.data with
    | nil => simp [run_script, hd]
    | cons c cs => simp [run_script, hd, hmw]
  · intro cs hd hmw hacc hpk hfk
    have hmw1 : mw ≠ -1 := by omega
    simp [run_script, hd, hacc, hpk, hfk, hmw1]

/-- C1 amended-claim witness at concrete inputs. -/
theorem C1_run_script_failures_witness :
    run_script none 2 envSilentChild = none ∧
    (run_script (some ("/bin/sleep")) 2 envSilentChild).isSome = true := by
  have h := C1_run_script_failures ("/bin/sleep") 2 envSilentChild
  exact ⟨h.1, h.2.2.2.2.2.2.2 ("bin/sleep".data) rfl (by decide) rfl rfl rfl⟩

set_option maxRecDepth 4000 in
/-- The code's suffix interpretation coincides with the specification's,
once the latter is read in uint32_t arithmetic. -/
theorem suffix_scale_eq (v : Int) (rest : List Char) :
    bb_suffix_scale v rest =
      (if v > 0 then
        match rest.head? with
        | some c =>
          if c = 'M' ∨ c = 'm' then (v.toNat + 1023) / 1024
          else if c = 'G' ∨ c = 'g' then v.toNat
          else if c = 'T' ∨ c = 't' then v.toNat * 1024 % U32
          else if c = 'P' ∨ c = 'p' then v.toNat * (1024 * 1024) % U32
          else v.toNat
        | none => v.toNat
      else 0) := by
  cases rest with
  | nil =>
    by_cases hv : v > 0
    · simp only [bb_suffix_scale, List.headD, List.head?, hv, if_pos]
      rw [if_neg (by decide), if_neg (by decide), if_neg (by decide), if_neg (by decide)]
    · simp [bb_suffix_scale, hv]
  | cons c t =>
    by_cases hv : v > 0
    · simp only [bb_suffix_scale, List.headD, List.head?, hv, if_pos]
      split_ifs <;> first | rfl | tauto
    · simp [bb_suffix_scale, hv]

/-- C7 (amended): for every token and granularity, bb_get_size_num computes
exactly the specification's parse_size formula with the suffix scaling and
the granularity rounding performed in uint32_t (modulo 2^32) arithmetic,
and all the specification's boundary examples hold. -/
theorem C7_parse_size_refinement (tok : String) (granularity : Nat) :
    bb_get_size_num tok granularity =
      parse_size_spec (toInt32 (strtol10 tok.data).1) (strtol10 tok.data).2.head?
        granularity ∧
    bb_get_size_num ("0") 1 = 0 ∧ bb_get_size_num ("1M") 1 = 1 ∧
    bb_get_size_num ("1024M") 1 = 1 ∧ bb_get_size_num ("2T") 1 = 2048 ∧
    bb_get_size_num ("1P") 1 = 1048576 ∧ bb_get_size_num ("5G") 4 = 8 := by
  refine ⟨?_, by decide, by decide, by decide, by decide, by decide, by decide⟩
  simp only [bb_get_size_num, parse_size_spec, bb_granularity_round]
  rw [suffix_scale_eq]

/-- C7 counterexample: the claim's exact-arithmetic reading fails: for the
token 4096P the claimed value is 4096 x 1024^2 = 2^32, but the uint32_t
multiplication wraps and bb_get_size_num returns 0. -/
theorem C7_counterexample :
    bb_get_size_num ("4096P") 1 = 0 ∧ (0 : Nat) ≠ 4096 * 1024 * 1024 := by
  exact ⟨by decide, by decide⟩

set_option maxRecDepth 4000 in
/-- C10: every suffix multiplication of _atoi and bb_get_size_num is a
uint32_t operation wrapping modulo 2^32: a token with positive int32 prefix
n and suffix g/G makes _atoi return n * 1024^3 mod 2^32 (so _atoi of 4g is
0), and a token with suffix p/P makes bb_get_size_num (before granularity
rounding, granularity 1) return n * 1024^2 mod 2^32. -/
theorem C10_u32_wrap :
    (∀ tok : String,
      0 < toInt32 (strtol10 tok.data).1 →
      ((strtol10 tok.data).2.head? = some 'g' ∨ (strtol10 tok.data).2.head? = some 'G') →
      _atoi tok = (toInt32 (strtol10 tok.data).1).toNat * (1024 * 1024 * 1024) % U32) ∧
    _atoi ("4g") = 0 ∧
    (∀ tok : String,
      0 < toInt32 (strtol10 tok.data).1 →
      ((strtol10 tok.data).2.head? = some 'p' ∨ (strtol10 tok.data).2.head? = some 'P') →
      bb_get_size_num tok 1 = (toInt32 (strtol10 tok.data).1).toNat * (1024 * 1024) % U32) := by
  refine ⟨?_, by decide, ?_⟩
  · intro tok h hsfx
    simp only [_atoi]
    generalize hP : strtol10 tok.data = P at h hsfx ⊢
    obtain ⟨v, rest⟩ := P
    simp only at h hsfx ⊢
    cases rest with
    | nil => simp at hsfx
    | cons c t =>
      simp only [List.head?, Option.some.injEq] at hsfx
      simp only [List.headD]
      rw [if_pos h]
      have harith : ∀ u : Nat, u * 1024 * (1024 * 1024) = u * (1024 * 1024 * 1024) := by
        intro u; ring
      rcases hsfx with hc | hc <;> subst hc <;>
        rw [if_neg (by decide), if_neg (by decide), if_pos (by decide),
            Nat.mod_mul_mod, mul_assoc, Nat.mod_mul_mod, harith]
  · intro tok h hsfx
    simp only [bb_get_size_num, bb_granularity_round]
    rw [if_neg (by decide)]
    simp only [bb_suffix_scale]
    generalize hP : strtol10 tok.data = P at h hsfx ⊢
    obtain ⟨v, rest⟩ := P
    simp only at h hsfx ⊢
    cases rest with
    | nil => simp at hsfx
    | cons c t =>
      simp only [List.head?, Option.some.injEq] at hsfx
      simp only [List.headD]
      rw [if_pos h]
      rcases hsfx with hc | hc <;> subst hc <;>
        rw [if_neg (by decide), if_neg (by decide), if_neg (by decide), if_pos (by decide)]

/-- C10 witness at concrete tokens with g and P suffixes. -/
theorem C10_u32_wrap_witness :
    _atoi ("3g") = 3221225472 ∧ bb_get_size_num ("4194304P") 1 = 0 := by
  have h := C10_u32_wrap
  constructor
  · have h1 := h.1 ("3g") (by decide) (by decide)
    rw [h1]; decide
  · have h2 := h.2.2 ("4194304P") (by decide) (by decide)
    rw [h2]; decide

/-- The scan reports work done exactly when every worker is terminal. -/
theorem wdogScan_work_done (ct now : Int) (ts : List Thd) :
    ∀ i, (wdogScan ct now i ts).work_done = true ↔
      ∀ t ∈ ts, t.state = .DONE ∨ t.state = .FAILED := by
  induction ts with
  | nil => intro i; simp [wdogScan]
  | cons t rest ih =>
    intro i
    cases ht : t.state <;> simp [wdogScan, ht, ih (i + 1)]

/-- The scan's fail count is the number of FAILED workers. -/
theorem wdogScan_fail_cnt (ct now : Int) (ts : List Thd) :
    ∀ i, (wdogScan ct now i ts).fail_cnt = countSt .FAILED ts := by
  induction ts with
  | nil => intro i; simp [wdogScan, countSt]
  | cons t rest ih =>
    intro i
    cases ht : t.state <;> simp [wdogScan, countSt, ht, ih (i + 1)] <;> omega

/-- When the poll loop exits, the snapshot it exits with is one of the
observed snapshots, its scan reported work done, and the returned fail
count is that snapshot's. -/
theorem wdogLoop_exit (ct : Int) (snaps : List (Int × List Thd)) :
    ∀ m acc snap fc maxd al,
      wdogLoop ct m acc snaps = some (snap, fc, maxd, al) →
      ∃ now, (now, snap) ∈ snaps ∧ (wdogScan ct now 0 snap).work_done = true ∧
        fc = (wdogScan ct now 0 snap).fail_cnt := by
  induction snaps with
  | nil => intro m acc snap fc maxd al h; simp [wdogLoop] at h
  | cons p rest ih =>
    intro m acc snap fc maxd al h
    obtain ⟨now, ts⟩ := p
    simp only [wdogLoop] at h
    by_cases hw : (wdogScan ct now 0 ts).work_done = true
    · rw [if_pos hw] at h
      simp only [Option.some.injEq, Prod.mk.injEq] at h
      obtain ⟨h1, h2, h3, h4⟩ := h
      subst h1
      exact ⟨now, by simp, hw, h2.symm⟩
    · rw [if_neg hw] at h
      obtain ⟨now', hmem, hwd, hfc⟩ := ih _ _ _ _ _ _ h
      exact ⟨now', by simp [hmem], hwd, hfc⟩

/-- No FAILED workers means the FAILED filter is empty. -/
theorem countSt_zero_filter (s : DshSt) (ts : List Thd) (h : countSt s ts = 0) :
    ts.filter (fun t => t.state == s) = [] := by
  induction ts with
  | nil => rfl
  | cons t rest ih =>
    simp only [countSt] at h
    by_cases ht : t.state = s
    · simp [ht] at h
    · simp only [List.filter_cons]
      rw [if_neg (by simp [ht])]
      exact ih (by omega)

/-- callsNotResp ignores a block of node_did_resp calls. -/
theorem callsNotResp_map_did (l : List Thd) (cs : List WdogCall) :
    callsNotResp ((l.map (fun t => WdogCall.did_resp t.node_name)) ++ cs) =
      callsNotResp cs := by
  induction l with
  | nil => rfl
  | cons t rest ih => simpa [callsNotResp] using ih

/-- callsNotResp collects exactly the names of a block of node_not_resp
calls. -/
theorem callsNotResp_map_not (l : List Thd) (cs : List WdogCall) :
    callsNotResp ((l.map (fun t => WdogCall.not_resp t.node_name)) ++ cs) =
      l.map (fun t => t.node_name) ++ callsNotResp cs := by
  induction l with
  | nil => rfl
  | cons t rest ih => simpa [callsNotResp] using ih

/-- callsDidResp ignores a block of node_not_resp calls. -/
theorem callsDidResp_map_not (l : List Thd) (cs : List WdogCall) :
    callsDidResp ((l.map (fun t => WdogCall.not_resp t.node_name)) ++ cs) =
      callsDidResp cs := by
  induction l with
  | nil => rfl
  | cons t rest ih => simpa [callsDidResp] using ih

/-- callsDidResp collects exactly the names of a block of node_did_resp
calls. -/
theorem callsDidResp_map_did (l : List Thd) (cs : List WdogCall) :
    callsDidResp ((l.map (fun t => WdogCall.did_resp t.node_name)) ++ cs) =
      l.map (fun t => t.node_name) ++ callsDidResp cs := by
  induction l with
  | nil => rfl
  | cons t rest ih => simpa [callsDidResp] using ih

/-- A block of node_not_resp calls is fine before any did_resp was seen. -/
theorem notBeforeDid_map_not (l : List Thd) (cs : List WdogCall) :
    notBeforeDid ((l.map (fun t => WdogCall.not_resp t.node_name)) ++ cs) false =
      notBeforeDid cs false := by
  induction l with
  | nil => rfl
  | cons t rest ih => simpa [notBeforeDid] using ih

/-- A trailing block of node_did_resp calls closed by an unlock keeps the
order property. -/
theorem notBeforeDid_map_did (l : List Thd) (lk : SlurmctldLock) :
    ∀ b, notBeforeDid ((l.map (fun t => WdogCall.did_resp t.node_name)) ++
      [WdogCall.unlock lk]) b = true := by
  induction l with
  | nil => intro b; rfl
  | cons t rest ih => intro b; simpa [notBeforeDid] using ih true

/-- A block of node_not_resp calls is properly locked when the composite
lock is held. -/
theorem respLocked_map_not (l : List Thd) (cs : List WdogCall) :
    respLocked ((l.map (fun t => WdogCall.not_resp t.node_name)) ++ cs)
      (some node_write_lock) = respLocked cs (some node_write_lock) := by
  induction l with
  | nil => rfl
  | cons t rest ih => simpa [respLocked] using ih

/-- A block of node_did_resp calls is properly locked when the composite
lock is held. -/
theorem respLocked_map_did (l : List Thd) (cs : List WdogCall) :
    respLocked ((l.map (fun t => WdogCall.did_resp t.node_name)) ++ cs)
      (some node_write_lock) = respLocked cs (some node_write_lock) := by
  induction l with
  | nil => rfl
  | cons t rest ih => simpa [respLocked] using ih

/-- The reconciliation trace calls node_not_resp exactly on the FAILED
workers and node_did_resp exactly on the DONE workers, in target order,
with every not_resp before every did_resp, and always under the
job-write/node-write composite lock. -/
theorem wdogReconcile_props (snap : List Thd) (fc : Nat)
    (hfc : fc = countSt .FAILED snap) :
    callsNotResp (wdogReconcile snap fc) =
      (snap.filter (fun t => t.state == .FAILED)).map (fun t => t.node_name) ∧
    callsDidResp (wdogReconcile snap fc) =
      (snap.filter (fun t => t.state == .DONE)).map (fun t => t.node_name) ∧
    notBeforeDid (wdogReconcile snap fc) false = true ∧
    respLocked (wdogReconcile snap fc) none = true := by
  by_cases h0 : fc = 0
  · have hfil : snap.filter (fun t => t.state == .FAILED) = [] :=
      countSt_zero_filter _ _ (by omega)
    refine ⟨?_, ?_, ?_, ?_⟩ <;>
      simp [wdogReconcile, h0, hfil, List.singleton_append, callsNotResp, callsDidResp,
            notBeforeDid, respLocked, callsNotResp_map_did, callsDidResp_map_did,
            notBeforeDid_map_did, respLocked_map_did]
  · refine ⟨?_, ?_, ?_, ?_⟩ <;>
      simp [wdogReconcile, h0, List.append_assoc, List.singleton_append,
            callsNotResp, callsDidResp, notBeforeDid, respLocked,
            callsNotResp_map_not, callsNotResp_map_did,
            callsDidResp_map_not, callsDidResp_map_did,
            notBeforeDid_map_not, notBeforeDid_map_did,
            respLocked_map_not, respLocked_map_did]

/-- C4: the watchdog exits its poll loop only when no worker is NEW or
ACTIVE (every worker terminal); the reconciliation then calls node_not_resp
once for each FAILED worker and node_did_resp once for each DONE worker,
each pass in target order, every node_not_resp call before every
node_did_resp call, all under the job-write/node-write composite lock. -/
theorem C4_watchdog_reconciliation (ct : Int) (snaps : List (Int × List Thd))
    (snap : List Thd) (maxd : Int) (alarms : List (Int × List Nat))
    (calls : List WdogCall)
    (h : wdog ct snaps = some (snap, maxd, alarms, calls)) :
    (∀ t ∈ snap, t.state = .DONE ∨ t.state = .FAILED) ∧
    callsNotResp calls =
      (snap.filter (fun t => t.state == .FAILED)).map (fun t => t.node_name) ∧
    callsDidResp calls =
      (snap.filter (fun t => t.state == .DONE)).map (fun t => t.node_name) ∧
    notBeforeDid calls false = true ∧
    respLocked calls none = true := by
  simp only [wdog] at h
  cases hl : wdogLoop ct 0 [] snaps with
  | none => rw [hl] at h; simp at h
  | some r =>
    obtain ⟨s, fc, m, a⟩ := r
    rw [hl] at h
    simp only [Option.some.injEq, Prod.mk.injEq] at h
    obtain ⟨h1, h2, h3, h4⟩ := h
    subst h1
    obtain ⟨now, hmem, hwd, hfc⟩ := wdogLoop_exit ct snaps 0 [] s fc m a hl
    have hterm : ∀ t ∈ s, t.state = .DONE ∨ t.state = .FAILED :=
      (wdogScan_work_done ct now s 0).mp hwd
    have hprops := wdogReconcile_props s fc (by rw [hfc, wdogScan_fail_cnt])
    rw [← h4]
    exact ⟨hterm, hprops.1, hprops.2.1, hprops.2.2.1, hprops.2.2.2⟩

/-- Index shift for the alarm characterization: an eligible worker deeper in
the list is eligible in the extended list. -/
theorem alarmsIdx_up (now ct : Int) (t : Thd) (rest : List Thd) (i j : Nat)
    (h : ∃ t', i + 1 ≤ j ∧ rest.get? (j - (i + 1)) = some t' ∧
      t'.state = DshSt.ACTIVE ∧ now - t'.time ≥ ct) :
    ∃ t', i ≤ j ∧ (t :: rest).get? (j - i) = some t' ∧
      t'.state = DshSt.ACTIVE ∧ now - t'.time ≥ ct := by
  obtain ⟨t', h1, h2, h3, h4⟩ := h
  refine ⟨t', by omega, ?_, h3, h4⟩
  rw [show j - i = (j - (i + 1)) + 1 by omega]
  simpa using h2

/-- Index shift for the alarm characterization: an eligible worker in the
extended list at an index other than the head is eligible in the tail. -/
theorem alarmsIdx_down (now ct : Int) (t : Thd) (rest : List Thd) (i j : Nat)
    (hji : j ≠ i)
    (h : ∃ t', i ≤ j ∧ (t :: rest).get? (j - i) = some t' ∧
      t'.state = DshSt.ACTIVE ∧ now - t'.time ≥ ct) :
    ∃ t', i + 1 ≤ j ∧ rest.get? (j - (i + 1)) = some t' ∧
      t'.state = DshSt.ACTIVE ∧ now - t'.time ≥ ct := by
  obtain ⟨t', h1, h2, h3, h4⟩ := h
  refine ⟨t', by omega, ?_, h3, h4⟩
  rw [show j - i = (j - (i + 1)) + 1 by omega] at h2
  simpa using h2

/-- Membership in the scan's alarm list characterizes exactly the ACTIVE
workers whose delay has reached COMMAND_TIMEOUT. -/
theorem wdogScan_alarms_mem (ct now : Int) (ts : List Thd) :
    ∀ i j, j ∈ (wdogScan ct now i ts).alarms ↔
      ∃ t, i ≤ j ∧ ts.get? (j - i) = some t ∧ t.state = DshSt.ACTIVE ∧
        now - t.time ≥ ct := by
  induction ts with
  | nil => intro i j; simp [wdogScan]
  | cons t rest ih =>
    intro i j
    have hshift : ¬ (t.state = DshSt.ACTIVE ∧ now - t.time ≥ ct) →
        ((∃ t', i + 1 ≤ j ∧ rest.get? (j - (i + 1)) = some t' ∧
          t'.state = DshSt.ACTIVE ∧ now - t'.time ≥ ct) ↔
         (∃ t', i ≤ j ∧ (t :: rest).get? (j - i) = some t' ∧
          t'.state = DshSt.ACTIVE ∧ now - t'.time ≥ ct)) := by
      intro hnot
      constructor
      · exact alarmsIdx_up now ct t rest i j
      · intro h
        by_cases hji : j = i
        · exfalso
          obtain ⟨t', _, h2, h3, h4⟩ := h
          subst hji
          simp only [Nat.sub_self, List.get?_cons_zero, Option.some.injEq] at h2
          exact hnot (by rw [h2]; exact ⟨h3, h4⟩)
        · exact alarmsIdx_down now ct t rest i j hji h
    cases ht : t.state with
    | ACTIVE =>
      by_cases hd : now - t.time ≥ ct
      · simp only [wdogScan, ht, if_pos hd]
        constructor
        · intro hm
          rcases List.mem_cons.mp hm with rfl | hm'
          · exact ⟨t, le_refl j, by simp, ht, hd⟩
          · exact alarmsIdx_up now ct t rest i j ((ih (i + 1) j).mp hm')
        · intro h
          by_cases hji : j = i
          · subst hji; exact List.mem_cons_self _ _
          · exact List.mem_cons_of_mem _
              ((ih (i + 1) j).mpr (alarmsIdx_down now ct t rest i j hji h))
      · simp only [wdogScan, ht, if_neg hd]
        rw [ih (i + 1)]
        exact hshift (by simp [ht, hd])
    | NEW =>
      simp only [wdogScan, ht]
      rw [ih (i + 1)]
      exact hshift (by simp [ht])
    | DONE =>
      simp only [wdogScan, ht]
      rw [ih (i + 1)]
      exact hshift (by simp [ht])
    | FAILED =>
      simp only [wdogScan, ht]
      rw [ih (i + 1)]
      exact hshift (by simp [ht])

/-- C5 (amended): on every poll the watchdog sends SIGALRM to exactly the
ACTIVE workers whose now - timestamp has reached COMMAND_TIMEOUT, and never
writes a worker state itself (the snapshot it exits with is one the workers
produced); a worker whose connect, send or receive is interrupted or fails
terminates FAILED.  (A worker that completes between polls may still end
DONE with elapsed time above COMMAND_TIMEOUT - see the counterexample.) -/
theorem C5_timeout_signalling :
    (∀ ct now : Int, ∀ ts : List Thd, ∀ j : Nat,
      (j ∈ (wdogScan ct now 0 ts).alarms ↔
        ∃ t, ts.get? j = some t ∧ t.state = DshSt.ACTIVE ∧ now - t.time ≥ ct)) ∧
    (∀ ct : Int, ∀ snaps : List (Int × List Thd), ∀ snap fc maxd al,
      wdogLoop ct 0 [] snaps = some (snap, fc, maxd, al) →
      ∃ now, (now, snap) ∈ snaps) ∧
    (∀ env : RpcEnv,
      env.openOk = false ∨ env.sendOk = false ∨ env.recvSize = none →
      thread_per_node_rpc env = DshSt.FAILED) := by
  refine ⟨?_, ?_, ?_⟩
  · intro ct now ts j
    rw [wdogScan_alarms_mem]
    simp
  · intro ct snaps snap fc maxd al h
    obtain ⟨now, hmem, _, _⟩ := wdogLoop_exit ct snaps 0 [] snap fc maxd al h
    exact ⟨now, hmem⟩
  · intro env h
    obtain ⟨o, s, r, sh, ty, rc⟩ := env
    rcases h with h | h | h
    · subst h; simp [thread_per_node_rpc]
    · subst h; cases o <;> simp [thread_per_node_rpc]
    · subst h; cases o <;> cases s <;> simp [thread_per_node_rpc]

/-- C5 amended-claim witness at concrete inputs. -/
theorem C5_timeout_signalling_witness :
    thread_per_node_rpc ⟨false, true, some 0, true, .RESPONSE_SLURM_RC, 0⟩ = .FAILED ∧
    (0 : Nat) ∈ (wdogScan 5 7 0 [⟨.ACTIVE, 0, "n0"⟩]).alarms := by
  have h := C5_timeout_signalling
  refine ⟨h.2.2 _ (Or.inl rfl), ?_⟩
  exact (h.1 5 7 [⟨.ACTIVE, 0, "n0"⟩] 0).mpr ⟨⟨.ACTIVE, 0, "n0"⟩, rfl, rfl, by decide⟩

/-- C5 counterexample: with COMMAND_TIMEOUT 5 (so WDOG_POLL 2), a legal
trace in which the worker is never observed past the timeout while ACTIVE:
its response took 6 > 5 seconds, the watchdog sent no SIGALRM (every
per-poll alarm list is empty), and the terminal state is DONE, not FAILED,
refuting the claim that a response longer than COMMAND_TIMEOUT always ends
FAILED. -/
theorem C5_counterexample :
    legalTrace 5 0 c5init c5snaps ∧
    wdogLoop 5 0 [] c5snaps =
      some ([⟨.DONE, 6, "n0"⟩], 0, 6, [(2, []), (4, []), (6, [])]) ∧
    (6 : Int) > 5 ∧ DshSt.DONE ≠ DshSt.FAILED := by
  refine ⟨⟨?_, ?_⟩, by rfl, by decide, by decide⟩
  · intro t ht
    simp only [c5init, List.mem_singleton] at ht
    subst ht; rfl
  · exact ⟨by decide,
      List.Forall₂.cons ⟨rfl, by decide⟩ List.Forall₂.nil,
      by decide,
      List.Forall₂.cons ⟨rfl, rfl⟩ List.Forall₂.nil,
      by decide,
      List.Forall₂.cons ⟨rfl, ⟨6, by decide, by decide, by decide⟩⟩ List.Forall₂.nil,
      trivial⟩

/-- C4 witness on a concrete finished trace. -/
theorem C4_watchdog_reconciliation_witness :
    (∀ t ∈ c4snap, t.state = .DONE ∨ t.state = .FAILED) ∧
    callsNotResp (wdogReconcile c4snap 1) =
      (c4snap.filter (fun t => t.state == .FAILED)).map (fun t => t.node_name) ∧
    callsDidResp (wdogReconcile c4snap 1) =
      (c4snap.filter (fun t => t.state == .DONE)).map (fun t => t.node_name) ∧
    notBeforeDid (wdogReconcile c4snap 1) false = true ∧
    respLocked (wdogReconcile c4snap 1) none = true :=
  C4_watchdog_reconciliation 5 [(2, c4snap)] c4snap 1 [(2, [])]
    (wdogReconcile c4snap 1) rfl

/-- No worker of a fresh pool is running. -/
theorem countRunning_replicate (cnt : Nat) :
    countRunning (List.replicate cnt WkPhase.notSpawned) = 0 := by
  induction cnt with
  | zero => rfl
  | succ n ih => simpa [List.replicate, countRunning] using ih

/-- Updating one slot changes the running count by the slot's old and new
contributions. -/
theorem countRunning_set (l : List WkPhase) :
    ∀ i a b, l.get? i = some a →
      countRunning (l.set i b) + (if a = WkPhase.running then 1 else 0) =
      countRunning l + (if b = WkPhase.running then 1 else 0) := by
  induction l with
  | nil => intro i a b h; simp at h
  | cons x xs ih =>
    intro i a b h
    cases i with
    | zero =>
      simp only [List.get?_cons_zero, Option.some.injEq] at h
      subst h
      simp only [List.set, countRunning]
      omega
    | succ n =>
      simp only [List.get?_cons_succ] at h
      simp only [List.set, countRunning]
      have := ih n a b h
      omega

/-- All workers finished means no worker is running. -/
theorem countRunning_all_finished (l : List WkPhase)
    (h : ∀ w ∈ l, w = WkPhase.finished) : countRunning l = 0 := by
  induction l with
  | nil => rfl
  | cons x xs ih =>
    have hx := h x (List.mem_cons_self x xs)
    have hxs := ih (fun w hw => h w (List.mem_cons_of_mem x hw))
    simp [countRunning, hx, hxs]

/-- The inductive invariant of the pool: the counter equals the number of
running workers and never exceeds AGENT_THREAD_COUNT. -/
theorem poolReach_inv (N : Nat) (hN : N < U32) (s : PoolState)
    (h : PoolReach N s) :
    s.threads_active = countRunning s.workers ∧ s.threads_active ≤ N := by
  induction h with
  | init cnt => exact ⟨(countRunning_replicate cnt).symm, Nat.zero_le N⟩
  | @step s' t' hr hs ih =>
    obtain ⟨ihc, ihb⟩ := ih
    cases hs with
    | spawn i hget hlt =>
      have hcnt := countRunning_set s'.workers i WkPhase.notSpawned WkPhase.running hget
      simp at hcnt
      have hmod : (s'.threads_active + 1) % U32 = s'.threads_active + 1 :=
        Nat.mod_eq_of_lt (by omega)
      refine ⟨?_, ?_⟩
      · show (s'.threads_active + 1) % U32 = countRunning (s'.workers.set i WkPhase.running)
        rw [hmod]; omega
      · show (s'.threads_active + 1) % U32 ≤ N
        rw [hmod]; omega
    | finish i hget =>
      have hcnt := countRunning_set s'.workers i WkPhase.running WkPhase.finished hget
      simp at hcnt
      have hge : 1 ≤ s'.threads_active := by omega
      have hU : 0 < U32 := by decide
      have hmod : (s'.threads_active + (U32 - 1)) % U32 = s'.threads_active - 1 := by
        have h1 : s'.threads_active + (U32 - 1) = (s'.threads_active - 1) + U32 := by
          omega
        rw [h1, Nat.add_mod_right]
        exact Nat.mod_eq_of_lt (by omega)
      refine ⟨?_, ?_⟩
      · show (s'.threads_active + (U32 - 1)) % U32 =
          countRunning (s'.workers.set i WkPhase.finished)
        rw [hmod]; omega
      · show (s'.threads_active + (U32 - 1)) % U32 ≤ N
        rw [hmod]; omega

/-- C6: in every reachable state of an agent invocation the shared counter
satisfies 0 ≤ threads_active ≤ AGENT_THREAD_COUNT (the dispatch loop only
spawns while threads_active < N, each worker decrements exactly once), it
always equals the number of running workers, and once every worker is
terminal - the condition under which the watchdog returns - it is 0. -/
theorem C6_threads_active_bounds (N : Nat) (s : PoolState)
    (hN : N < U32) (h : PoolReach N s) :
    0 ≤ s.threads_active ∧ s.threads_active ≤ N ∧
    s.threads_active = countRunning s.workers ∧
    ((∀ w ∈ s.workers, w = WkPhase.finished) → s.threads_active = 0) := by
  obtain ⟨hc, hb⟩ := poolReach_inv N hN s h
  exact ⟨Nat.zero_le _, hb, hc,
    fun hall => by rw [hc, countRunning_all_finished s.workers hall]⟩

/-- C6 witness: a spawn followed by the worker's completion, with
AGENT_THREAD_COUNT 1, ends with the counter at 0. -/
theorem C6_threads_active_bounds_witness :
    (⟨((0 + 1) % U32 + (U32 - 1)) % U32,
      ((List.replicate 1 WkPhase.notSpawned).set 0 WkPhase.running).set 0
        WkPhase.finished⟩ : PoolState).threads_active = 0 := by
  have h := C6_threads_active_bounds 1 _ (by decide)
    (PoolReach.step
      (PoolReach.step (PoolReach.init 1) (PoolStep.spawn _ 0 rfl (by decide)))
      (PoolStep.finish _ 0 rfl))
  exact h.2.2.2 (by decide)

/-- A user's live size is bounded by the total live size. -/
theorem liveSizeOf_le_liveTotal (uid : Nat) (as_ : List BbAlloc) :
    ∀ ls, liveSizeOf uid as_ ls ≤ liveTotal as_ ls := by
  induction as_ with
  | nil => intro ls; cases ls <;> simp [liveSizeOf, liveTotal]
  | cons a rest ih =>
    intro ls
    cases ls with
    | nil => simp [liveSizeOf, liveTotal]
    | cons l ls' =>
      simp only [liveSizeOf, liveTotal]
      have := ih ls'
      by_cases h : l ∧ a.user_id = uid
      · simp [h, h.1]; omega
      · by_cases hl : l
        · simp only [if_pos hl, if_neg h]; omega
        · simp only [if_neg hl, if_neg h]; omega

/-- Killing a live record removes exactly its size from the live total. -/
theorem liveTotal_set_false (as_ : List BbAlloc) :
    ∀ ls idx bb, as_.get? idx = some bb → ls.get? idx = some true →
      liveTotal as_ (ls.set idx false) + bb.size = liveTotal as_ ls := by
  induction as_ with
  | nil => intro ls idx bb h _; simp at h
  | cons a rest ih =>
    intro ls idx bb h hl
    cases ls with
    | nil => simp at hl
    | cons l ls' =>
      cases idx with
      | zero =>
        simp only [List.get?_cons_zero, Option.some.injEq] at h hl
        subst h; subst hl
        simp [List.set, liveTotal]
        omega
      | succ n =>
        simp only [List.get?_cons_succ] at h hl
        simp only [List.set, liveTotal]
        have := ih ls' n bb h hl
        omega

/-- Killing a live record removes exactly its size from its user's live
size. -/
theorem liveSizeOf_set_false (as_ : List BbAlloc) :
    ∀ ls idx bb, as_.get? idx = some bb → ls.get? idx = some true →
      liveSizeOf bb.user_id as_ (ls.set idx false) + bb.size =
        liveSizeOf bb.user_id as_ ls := by
  induction as_ with
  | nil => intro ls idx bb h _; simp at h
  | cons a rest ih =>
    intro ls idx bb h hl
    cases ls with
    | nil => simp at hl
    | cons l ls' =>
      cases idx with
      | zero =>
        simp only [List.get?_cons_zero, Option.some.injEq] at h hl
        subst h; subst hl
        simp [List.set, liveSizeOf]
        omega
      | succ n =>
        simp only [List.get?_cons_succ] at h hl
        simp only [List.set, liveSizeOf]
        have := ih ls' n bb h hl
        omega

/-- Killing a record of one user leaves every other user's live size
unchanged. -/
theorem liveSizeOf_set_false_other (uid : Nat) (as_ : List BbAlloc) :
    ∀ ls idx bb, as_.get? idx = some bb → uid ≠ bb.user_id →
      liveSizeOf uid as_ (ls.set idx false) = liveSizeOf uid as_ ls := by
  induction as_ with
  | nil => intro ls idx bb h _; simp at h
  | cons a rest ih =>
    intro ls idx bb h hne
    cases ls with
    | nil => simp [List.set]
    | cons l ls' =>
      cases idx with
      | zero =>
        simp only [List.get?_cons_zero, Option.some.injEq] at h
        subst h
        simp only [List.set, liveSizeOf]
        rw [if_neg (by simp), if_neg (fun hc => hne hc.2.symm)]
      | succ n =>
        simp only [List.get?_cons_succ] at h
        simp only [List.set, liveSizeOf]
        rw [ih ls' n bb h hne]

/-- find? on a user-table cons, phrased with a propositional test. -/
theorem find?_user_cons (v : BbUser) (rest : List BbUser) (q : Nat) :
    (v :: rest).find? (fun x => x.user_id == q) =
      if v.user_id = q then some v else rest.find? (fun x => x.user_id == q) := by
  by_cases h : v.user_id = q
  · rw [if_pos h]
    exact List.find?_cons_of_pos _ (by simp [h])
  · rw [if_neg h]
    exact List.find?_cons_of_neg _ (by simp [h])

/-- updateUserSize on a cons, phrased with a propositional test. -/
theorem updateUserSize_cons (uid : Nat) (f : Nat → Nat) (v : BbUser) (rest : List BbUser) :
    updateUserSize uid f (v :: rest) =
      if v.user_id = uid then { v with size := f v.size } :: rest
      else v :: updateUserSize uid f rest := by
  by_cases h : v.user_id = uid
  · rw [if_pos h]; simp [updateUserSize, h]
  · rw [if_neg h]; simp [updateUserSize, h]

/-- Updating a user's size leaves the table's user ids unchanged. -/
theorem userIds_updateUserSize (uid : Nat) (f : Nat → Nat) (us : List BbUser) :
    (updateUserSize uid f us).map (fun u => u.user_id) =
      us.map (fun u => u.user_id) := by
  induction us with
  | nil => rfl
  | cons v rest ih =>
    rw [updateUserSize_cons]
    by_cases h : v.user_id = uid
    · simp [h]
    · simp [if_neg h, ih]

/-- Reading back the updated user. -/
theorem lookupSize_update_self (uid : Nat) (f : Nat → Nat) (us : List BbUser) :
    ∀ u, us.find? (fun x => x.user_id == uid) = some u →
      lookupSize uid (updateUserSize uid f us) = f u.size := by
  induction us with
  | nil => intro u h; simp at h
  | cons v rest ih =>
    intro u h
    rw [find?_user_cons] at h
    rw [updateUserSize_cons]
    by_cases hv : v.user_id = uid
    · rw [if_pos hv] at h
      rw [if_pos hv]
      cases h
      simp only [lookupSize, find?_user_cons]
      rw [if_pos hv]
      rfl
    · rw [if_neg hv] at h
      rw [if_neg hv]
      simp only [lookupSize, find?_user_cons]
      rw [if_neg hv]
      exact ih u h

/-- Updating one user leaves every other user's recorded size unchanged. -/
theorem lookupSize_update_other (uid uid' : Nat) (f : Nat → Nat) (us : List BbUser)
    (hne : uid' ≠ uid) :
    lookupSize uid' (updateUserSize uid f us) = lookupSize uid' us := by
  induction us with
  | nil => rfl
  | cons v rest ih =>
    rw [updateUserSize_cons]
    by_cases hv : v.user_id = uid
    · rw [if_pos hv]
      have hv' : ¬ ({ v with size := f v.size } : BbUser).user_id = uid' := by
        simp only [hv]
        exact fun h => hne h.symm
      have hv'' : ¬ v.user_id = uid' := by
        rw [hv]; exact fun h => hne h.symm
      simp only [lookupSize, find?_user_cons, if_neg hv', if_neg hv'']
    · rw [if_neg hv]
      by_cases hv' : v.user_id = uid'
      · simp only [lookupSize, find?_user_cons, if_pos hv']
      · simp only [lookupSize, find?_user_cons, if_neg hv']
        exact ih

/-- The total recorded size changes by exactly the updated user's delta. -/
theorem userSizeSum_update (uid : Nat) (f : Nat → Nat) (us : List BbUser) :
    ∀ u, us.find? (fun x => x.user_id == uid) = some u →
      userSizeSum (updateUserSize uid f us) + u.size = userSizeSum us + f u.size := by
  induction us with
  | nil => intro u h; simp at h
  | cons v rest ih =>
    intro u h
    rw [find?_user_cons] at h
    rw [updateUserSize_cons]
    by_cases hv : v.user_id = uid
    · rw [if_pos hv] at h
      rw [if_pos hv]
      cases h
      simp only [userSizeSum]
      omega
    · rw [if_neg hv] at h
      rw [if_neg hv]
      simp only [userSizeSum]
      have := ih u h
      omega

/-- An absent user id reads as size 0. -/
theorem lookupSize_of_find?_none (uid : Nat) (us : List BbUser)
    (h : us.find? (fun x => x.user_id == uid) = none) :
    lookupSize uid us = 0 := by
  simp [lookupSize, h]

/-- A found user reads as its recorded size. -/
theorem lookupSize_of_find?_some (uid : Nat) (us : List BbUser) (u : BbUser)
    (h : us.find? (fun x => x.user_id == uid) = some u) :
    lookupSize uid us = u.size := by
  simp [lookupSize, h]

/-- A user id that find? misses is not among the table's ids. -/
theorem find?_none_not_mem (uid : Nat) (us : List BbUser)
    (h : us.find? (fun x => x.user_id == uid) = none) :
    uid ∉ us.map (fun u => u.user_id) := by
  intro hmem
  obtain ⟨u, hu, huid⟩ := List.mem_map.mp hmem
  have := List.find?_eq_none.mp h u hu
  simp [huid] at this

/-- In a table with distinct user ids, find? on a member's id returns that
member. -/
theorem find?_of_mem_nodup (us : List BbUser)
    (hnd : (us.map (fun u => u.user_id)).Nodup) :
    ∀ u, u ∈ us → us.find? (fun x => x.user_id == u.user_id) = some u := by
  induction us with
  | nil => intro u hu; simp at hu
  | cons v rest ih =>
    intro u hu
    simp only [List.map_cons, List.nodup_cons] at hnd
    rcases List.mem_cons.mp hu with rfl | hu'
    · rw [find?_user_cons, if_pos rfl]
    · rw [find?_user_cons]
      have hne : ¬ v.user_id = u.user_id := by
        intro he
        exact hnd.1 (he ▸ List.mem_map.mpr ⟨u, hu', rfl⟩)
      rw [if_neg hne]
      exact ih hnd.2 u hu'

/-- bb_alloc_job_rec followed by bb_add_user_load preserves the accounting
invariant when the new record does not overflow the 32-bit total. -/
theorem bbInv_add (bb : BbAlloc) (st : BbState) (live : List Bool)
    (hinv : bbInv ⟨st, live⟩)
    (hb : liveTotal st.allocs live + bb.size < U32) :
    bbInv ⟨bb_add_user_load bb { st with allocs := bb :: st.allocs }, true :: live⟩ := by
  obtain ⟨hlen, hnd, hlook, hused, hsum⟩ := hinv
  dsimp only at hlen hnd hlook hused hsum
  have hls : liveSizeOf bb.user_id st.allocs live ≤ liveTotal st.allocs live :=
    liveSizeOf_le_liveTotal bb.user_id st.allocs live
  have hcons_total : liveTotal (bb :: st.allocs) (true :: live) =
      bb.size + liveTotal st.allocs live := by simp [liveTotal]
  have hcons_self : liveSizeOf bb.user_id (bb :: st.allocs) (true :: live) =
      bb.size + liveSizeOf bb.user_id st.allocs live := by simp [liveSizeOf]
  have hcons_other : ∀ uid, uid ≠ bb.user_id →
      liveSizeOf uid (bb :: st.allocs) (true :: live) =
      liveSizeOf uid st.allocs live := by
    intro uid hne
    simp [liveSizeOf, Ne.symm hne]
  cases hf : st.users.find? (fun u => u.user_id == bb.user_id) with
  | some u =>
    have hlku : lookupSize bb.user_id st.users = u.size :=
      lookupSize_of_find?_some _ _ _ hf
    have huls : u.size = liveSizeOf bb.user_id st.allocs live := by
      rw [← hlku]; exact hlook bb.user_id
    refine ⟨?_, ?_, ?_, ?_, ?_⟩
    · simpa [bb_add_user_load, bb_find_user_rec, hf] using hlen
    · simp only [bb_add_user_load, bb_find_user_rec, hf]
      rw [userIds_updateUserSize]
      exact hnd
    · intro uid
      simp only [bb_add_user_load, bb_find_user_rec, hf]
      by_cases he : uid = bb.user_id
      · subst he
        rw [lookupSize_update_self bb.user_id _ st.users u hf, hcons_self]
        rw [show (u.size + bb.size) % U32 = u.size + bb.size from
          Nat.mod_eq_of_lt (by omega)]
        omega
      · rw [lookupSize_update_other _ _ _ _ he, hcons_other uid he]
        exact hlook uid
    · simp only [bb_add_user_load, bb_find_user_rec, hf, hcons_total]
      rw [show (st.used_space + bb.size) % U32 = st.used_space + bb.size from
        Nat.mod_eq_of_lt (by omega)]
      omega
    · simp only [bb_add_user_load, bb_find_user_rec, hf]
      have hupd := userSizeSum_update bb.user_id
        (fun s => (s + bb.size) % U32) st.users u hf
      simp only at hupd
      rw [show (u.size + bb.size) % U32 = u.size + bb.size from
        Nat.mod_eq_of_lt (by omega)] at hupd
      rw [show (st.used_space + bb.size) % U32 = st.used_space + bb.size from
        Nat.mod_eq_of_lt (by omega)]
      omega
  | none =>
    have hlk0 : lookupSize bb.user_id st.users = 0 :=
      lookupSize_of_find?_none _ _ hf
    have hls0 : liveSizeOf bb.user_id st.allocs live = 0 := by
      rw [← hlk0]; exact (hlook bb.user_id).symm
    have hfhead : (({ user_id := bb.user_id, size := 0 } : BbUser) :: st.users).find?
        (fun u => u.user_id == bb.user_id) = some ⟨bb.user_id, 0⟩ := by
      rw [find?_user_cons, if_pos rfl]
    refine ⟨?_, ?_, ?_, ?_, ?_⟩
    · simpa [bb_add_user_load, bb_find_user_rec, hf] using hlen
    · simp only [bb_add_user_load, bb_find_user_rec, hf]
      rw [userIds_updateUserSize]
      simp only [List.map_cons, List.nodup_cons]
      exact ⟨find?_none_not_mem _ _ hf, hnd⟩
    · intro uid
      simp only [bb_add_user_load, bb_find_user_rec, hf]
      by_cases he : uid = bb.user_id
      · subst he
        rw [lookupSize_update_self bb.user_id _ _ _ hfhead, hcons_self, hls0]
        rw [show (0 + bb.size) % U32 = bb.size by
          rw [Nat.mod_eq_of_lt (by omega)]; omega]
        omega
      · rw [lookupSize_update_other _ _ _ _ he, hcons_other uid he]
        have : lookupSize uid (⟨bb.user_id, 0⟩ :: st.users) = lookupSize uid st.users := by
          simp only [lookupSize, find?_user_cons]
          rw [if_neg (fun hc => he hc.symm)]
        rw [this]
        exact hlook uid
    · simp only [bb_add_user_load, bb_find_user_rec, hf, hcons_total]
      rw [show (st.used_space + bb.size) % U32 = st.used_space + bb.size from
        Nat.mod_eq_of_lt (by omega)]
      omega
    · simp only [bb_add_user_load, bb_find_user_rec, hf]
      have hupd := userSizeSum_update bb.user_id
        (fun s => (s + bb.size) % U32) (⟨bb.user_id, 0⟩ :: st.users) ⟨bb.user_id, 0⟩ hfhead
      simp only [userSizeSum] at hupd
      rw [show (0 + bb.size) % U32 = bb.size by
        rw [Nat.mod_eq_of_lt (by omega)]; omega] at hupd
      rw [show (st.used_space + bb.size) % U32 = st.used_space + bb.size from
        Nat.mod_eq_of_lt (by omega)]
      omega

/-- bb_remove_user_load on a live record preserves the accounting invariant,
the record's ghost flag becoming dead. -/
theorem bbInv_remove (bb : BbAlloc) (st : BbState) (live : List Bool) (idx : Nat)
    (hinv : bbInv ⟨st, live⟩)
    (hget : st.allocs.get? idx = some bb)
    (hlive : live.get? idx = some true) :
    bbInv ⟨bb_remove_user_load bb st, live.set idx false⟩ := by
  obtain ⟨hlen, hnd, hlook, hused, hsum⟩ := hinv
  dsimp only at hlen hnd hlook hused hsum
  have hset_total := liveTotal_set_false st.allocs live idx bb hget hlive
  have hset_self := liveSizeOf_set_false st.allocs live idx bb hget hlive
  have hset_other : ∀ uid, uid ≠ bb.user_id →
      liveSizeOf uid st.allocs (live.set idx false) = liveSizeOf uid st.allocs live :=
    fun uid hne => liveSizeOf_set_false_other uid st.allocs live idx bb hget hne
  have hls : liveSizeOf bb.user_id st.allocs live ≤ liveTotal st.allocs live :=
    liveSizeOf_le_liveTotal bb.user_id st.allocs live
  have husz : bb.size ≤ st.used_space := by omega
  cases hf : st.users.find? (fun u => u.user_id == bb.user_id) with
  | some u =>
    have hlku : lookupSize bb.user_id st.users = u.size :=
      lookupSize_of_find?_some _ _ _ hf
    have huls : u.size = liveSizeOf bb.user_id st.allocs live := by
      rw [← hlku]; exact hlook bb.user_id
    have huge : u.size ≥ bb.size := by omega
    refine ⟨?_, ?_, ?_, ?_, ?_⟩
    · simpa using hlen
    · simp only [bb_remove_user_load, bb_find_user_rec, hf]
      rw [userIds_updateUserSize]
      exact hnd
    · intro uid
      simp only [bb_remove_user_load, bb_find_user_rec, hf]
      by_cases he : uid = bb.user_id
      · subst he
        rw [lookupSize_update_self bb.user_id _ st.users u hf]
        simp only [ge_iff_le]
        rw [if_pos huge]
        omega
      · rw [lookupSize_update_other _ _ _ _ he, hset_other uid he]
        exact hlook uid
    · simp only [bb_remove_user_load, bb_find_user_rec, hf]
      rw [if_pos husz]
      omega
    · simp only [bb_remove_user_load, bb_find_user_rec, hf]
      have hupd : userSizeSum (updateUserSize bb.user_id
            (fun s => if s ≥ bb.size then s - bb.size else 0) st.users) + u.size =
          userSizeSum st.users + (if u.size ≥ bb.size then u.size - bb.size else 0) :=
        userSizeSum_update bb.user_id
          (fun s => if s ≥ bb.size then s - bb.size else 0) st.users u hf
      rw [if_pos huge] at hupd
      rw [if_pos husz]
      omega
  | none =>
    have hlk0 : lookupSize bb.user_id st.users = 0 :=
      lookupSize_of_find?_none _ _ hf
    have hls0 : liveSizeOf bb.user_id st.allocs live = 0 := by
      rw [← hlk0]; exact (hlook bb.user_id).symm
    have hsz : bb.size = 0 := by omega
    have hfhead : (({ user_id := bb.user_id, size := 0 } : BbUser) :: st.users).find?
        (fun u => u.user_id == bb.user_id) = some ⟨bb.user_id, 0⟩ := by
      rw [find?_user_cons, if_pos rfl]
    refine ⟨?_, ?_, ?_, ?_, ?_⟩
    · simpa using hlen
    · simp only [bb_remove_user_load, bb_find_user_rec, hf]
      rw [userIds_updateUserSize]
      simp only [List.map_cons, List.nodup_cons]
      exact ⟨find?_none_not_mem _ _ hf, hnd⟩
    · intro uid
      simp only [bb_remove_user_load, bb_find_user_rec, hf]
      by_cases he : uid = bb.user_id
      · subst he
        rw [lookupSize_update_self bb.user_id _ _ _ hfhead]
        simp only [ge_iff_le]
        rw [if_pos (show bb.size ≤ 0 by omega)]
        omega
      · rw [lookupSize_update_other _ _ _ _ he, hset_other uid he]
        have : lookupSize uid (⟨bb.user_id, 0⟩ :: st.users) = lookupSize uid st.users := by
          simp only [lookupSize, find?_user_cons]
          rw [if_neg (fun hc => he hc.symm)]
        rw [this]
        exact hlook uid
    · simp only [bb_remove_user_load, bb_find_user_rec, hf]
      rw [if_pos husz]
      omega
    · simp only [bb_remove_user_load, bb_find_user_rec, hf]
      have hupd : userSizeSum (updateUserSize bb.user_id
            (fun s => if s ≥ bb.size then s - bb.size else 0)
            (⟨bb.user_id, 0⟩ :: st.users)) + 0 =
          userSizeSum (⟨bb.user_id, 0⟩ :: st.users) +
            (if 0 ≥ bb.size then 0 - bb.size else 0) :=
        userSizeSum_update bb.user_id
          (fun s => if s ≥ bb.size then s - bb.size else 0)
          (⟨bb.user_id, 0⟩ :: st.users) ⟨bb.user_id, 0⟩ hfhead
      rw [if_pos (show (0 : Nat) ≥ bb.size by omega)] at hupd
      simp only [userSizeSum] at hupd
      rw [if_pos husz]
      omega

/-- A valid bookkeeping trace that fits in 32 bits preserves the accounting
invariant from any state satisfying it. -/
theorem bbRun_inv (ops : List BbOp) :
    ∀ r : BbRun, bbValid r ops = true → bbInv r →
      liveTotal r.st.allocs r.live + bbAllocTotal ops < U32 →
      bbInv (bbRun r ops) := by
  induction ops with
  | nil => intro r _ hinv _; exact hinv
  | cons op rest ih =>
    intro r hv hinv hb
    simp only [bbValid, Bool.and_eq_true] at hv
    obtain ⟨hv1, hv2⟩ := hv
    simp only [bbRun]
    cases op with
    | alloc job size now =>
      have hshape : bbStep r (BbOp.alloc job size now) =
          ⟨bb_add_user_load (bb_alloc_job r.st job size now).1
             { r.st with allocs := (bb_alloc_job r.st job size now).1 :: r.st.allocs },
           true :: r.live⟩ := rfl
      have hsize : (bb_alloc_job r.st job size now).1.size = size := rfl
      rw [hshape]
      refine ih _ ?_ ?_ ?_
      · rw [← hshape]; exact hv2
      · refine bbInv_add _ r.st r.live hinv ?_
        simp only [bbAllocTotal] at hb
        rw [hsize]
        omega
      · show liveTotal ((bb_alloc_job r.st job size now).1 :: r.st.allocs)
            (true :: r.live) + bbAllocTotal rest < U32
        have hct : liveTotal ((bb_alloc_job r.st job size now).1 :: r.st.allocs)
            (true :: r.live) =
            (bb_alloc_job r.st job size now).1.size + liveTotal r.st.allocs r.live := by
          simp [liveTotal]
        rw [hct, hsize]
        simp only [bbAllocTotal] at hb
        omega
    | remove idx =>
      have hlt : r.live.get? idx = some true := by simpa using hv1
      have hlen : r.live.length = r.st.allocs.length := hinv.1
      have hidx : idx < r.st.allocs.length := by
        by_contra hc
        rw [List.get?_eq_none.mpr (by omega)] at hlt
        cases hlt
      obtain ⟨bb, hget⟩ : ∃ bb, r.st.allocs.get? idx = some bb := by
        cases hga : r.st.allocs.get? idx with
        | none =>
          rw [List.get?_eq_none] at hga
          omega
        | some bb => exact ⟨bb, rfl⟩
      have hshape : bbStep r (BbOp.remove idx) =
          ⟨bb_remove_user_load bb r.st, r.live.set idx false⟩ := by
        simp only [bbStep]
        rw [hget]
      rw [hshape]
      refine ih _ ?_ ?_ ?_
      · rw [← hshape]; exact hv2
      · exact bbInv_remove bb r.st r.live idx hinv hget hlt
      · show liveTotal r.st.allocs (r.live.set idx false) + bbAllocTotal rest < U32
        have hst := liveTotal_set_false r.st.allocs r.live idx bb hget hlt
        simp only [bbAllocTotal] at hb
        omega

/-- C8 (amended): starting from the empty cache, after any sequence of
bb_alloc_job and bb_remove_user_load calls in which each removal targets a
record not removed before and the total allocated size stays below 2^32,
used_space equals the sum of user.size over all user records and each user
record's size equals the total size of that user's live (not yet removed)
allocation records; bb_add_user_load adds alloc.size to used_space and to
the owner's size (uint32_t, modulo 2^32), and bb_remove_user_load subtracts
it from both, saturating at zero. -/
theorem C8_accounting (ops : List BbOp) (pbu : Nat)
    (hv : bbValid (bbInitRun pbu) ops = true)
    (hb : bbAllocTotal ops < U32) :
    ((bbRun (bbInitRun pbu) ops).st.used_space =
       userSizeSum (bbRun (bbInitRun pbu) ops).st.users ∧
     ∀ u ∈ (bbRun (bbInitRun pbu) ops).st.users,
       u.size = liveSizeOf u.user_id (bbRun (bbInitRun pbu) ops).st.allocs
         (bbRun (bbInitRun pbu) ops).live) ∧
    (∀ bb : BbAlloc, ∀ st : BbState,
      (bb_add_user_load bb st).used_space = (st.used_space + bb.size) % U32 ∧
      lookupSize bb.user_id (bb_add_user_load bb st).users =
        (lookupSize bb.user_id st.users + bb.size) % U32) ∧
    (∀ bb : BbAlloc, ∀ st : BbState,
      (bb_remove_user_load bb st).used_space = st.used_space - bb.size ∧
      lookupSize bb.user_id (bb_remove_user_load bb st).users =
        lookupSize bb.user_id st.users - bb.size) := by
  have hinv0 : bbInv (bbInitRun pbu) := ⟨rfl, List.nodup_nil, fun _ => rfl, rfl, rfl⟩
  have hrun := bbRun_inv ops (bbInitRun pbu) hv hinv0
    (by simpa [bbInitRun, liveTotal] using hb)
  obtain ⟨_, hnd, hlook, _, hsum⟩ := hrun
  refine ⟨⟨hsum, ?_⟩, ?_, ?_⟩
  · intro u hu
    have hfind := find?_of_mem_nodup _ hnd u hu
    have := lookupSize_of_find?_some _ _ _ hfind
    rw [← this]
    exact hlook u.user_id
  · intro bb st
    refine ⟨rfl, ?_⟩
    cases hf : st.users.find? (fun u => u.user_id == bb.user_id) with
    | some u =>
      simp only [bb_add_user_load, bb_find_user_rec, hf]
      rw [lookupSize_update_self _ _ _ _ hf, lookupSize_of_find?_some _ _ _ hf]
    | none =>
      simp only [bb_add_user_load, bb_find_user_rec, hf]
      have hfhead : (({ user_id := bb.user_id, size := 0 } : BbUser) :: st.users).find?
          (fun u => u.user_id == bb.user_id) = some ⟨bb.user_id, 0⟩ := by
        rw [find?_user_cons, if_pos rfl]
      rw [lookupSize_update_self _ _ _ _ hfhead, lookupSize_of_find?_none _ _ hf]
  · intro bb st
    constructor
    · show (if st.used_space ≥ bb.size then st.used_space - bb.size else 0) =
        st.used_space - bb.size
      split <;> omega
    · cases hf : st.users.find? (fun u => u.user_id == bb.user_id) with
      | some u =>
        simp only [bb_remove_user_load, bb_find_user_rec, hf]
        rw [lookupSize_update_self _ _ _ _ hf, lookupSize_of_find?_some _ _ _ hf]
        show (if u.size ≥ bb.size then u.size - bb.size else 0) = u.size - bb.size
        split <;> omega
      | none =>
        simp only [bb_remove_user_load, bb_find_user_rec, hf]
        have hfhead : (({ user_id := bb.user_id, size := 0 } : BbUser) :: st.users).find?
            (fun u => u.user_id == bb.user_id) = some ⟨bb.user_id, 0⟩ := by
          rw [find?_user_cons, if_pos rfl]
        rw [lookupSize_update_self _ _ _ _ hfhead, lookupSize_of_find?_none _ _ hf]
        show (if (0 : Nat) ≥ bb.size then 0 - bb.size else 0) = 0 - bb.size
        split <;> omega

/-- C8 amended-claim witness on the concrete one-allocation trace. -/
theorem C8_accounting_witness :
    (bbRun (bbInitRun 0) c8ops).st.used_space =
      userSizeSum (bbRun (bbInitRun 0) c8ops).st.users := by
  have h := C8_accounting c8ops 0 (by decide) (by decide)
  exact h.1.1

/-- C8 counterexample: bb_remove_user_load does not unlink the allocation
record from bb_hash, so after one alloc_job and one remove_user_load the
user record's size is 0 while the sum of alloc.size over that user's
allocation records is still 5 - the claimed per-user invariant fails. -/
theorem C8_counterexample :
    lookupSize 7 c8cex.st.users = 0 ∧
    allocSizeOf 7 c8cex.st.allocs = 5 ∧ (0 : Nat) ≠ 5 := by
  refine ⟨by decide, by decide, by decide⟩
